import Mathlib

/-!
Verification of the I2MC_Python example batch script (`example/I2MC_example.py`).

The script is an orchestration pipeline: it enumerates participant folders
below a data root with `os.walk`, allocates a collision-avoiding output file
name (`allfixations.txt`, `allfixations_1.txt`, ...), and for each recording
file calls an external parser (`imp.tobii_TX300`), an external classifier
(`I2MC.I2MC`, wrapped in try/except), optionally an external plotter, and
appends the classified fixations to the aggregate file with
`fix_df.to_csv(fix_file, mode='a', header=not os.path.exists(fix_file), ...)`.

We embed the script shallowly:
* paths are lists of components (`os.path.join` is list append, `os.sep`
  splitting recovers the components);
* the data root is a static directory tree (`DirTree`); `os.walk` over it is
  `walkFrom`.  Python's `os.walk` swallows the `OSError` from `scandir`
  (default `onerror=None`), so walking a missing path or a non-directory
  yields an empty iterator; we model a missing/non-directory data root as
  `none` and make the walk empty there;
* the mutable world (output files with their contents, output directories,
  everything printed) is a state record `St` threaded explicitly; calls to
  the external parser and to `mkdir` are additionally recorded in event logs
  so that claims about "the parser was invoked on recording k+1" and
  "creation is idempotent" can be stated;
* the external parser and classifier are oracles (`Oracles`), indexed by the
  recording's full path; each either returns a value or raises.  An uncaught
  Python exception is modelled by the run returning `some msg` in the second
  component: the remaining statements of the script do not execute;
* a file's content is a list of `Line`s; `to_csv` in append mode appends an
  optional header line followed by the data rows to whatever is already
  there (creating the file when absent).  Cell values are kept abstract as
  strings; the numeric formatting (`%.3f`, `nan`, tab separation) is not
  needed by any claim.
-/

namespace I2MCExample

/-- A filesystem path, as its list of components (`os.path.join` appends a
component; `folder.split(os.sep)[-1]` is the last component). -/
abbrev Path := List String

/-- One line of the aggregate output file: either a header line carrying the
column names, or a data row carrying the cell values. -/
inductive Line where
  | header (cols : List String)
  | row (vals : List String)
deriving DecidableEq, Repr

/-- The value returned by `I2MC.I2MC` (its first component `fix`): either the
Python literal `False`, or a dict of columns (column names plus the rows,
kept row-major).  `not fix` is true for `False` and for the empty dict. -/
inductive FixVal where
  | fls
  | table (cols : List String) (rows : List (List String))
deriving DecidableEq, Repr

/-- Python truthiness of `fix`: `False` and the empty dict are falsy. -/
def FixVal.truthy : FixVal → Bool
  | .fls => false
  | .table cols _ => !cols.isEmpty

/-- Python `fix != False`. -/
def FixVal.neFalse : FixVal → Bool
  | .fls => false
  | .table _ _ => true

/-- The time series returned by the parser; the script only inspects
`len(data['time'])` and passes the rest through opaquely. -/
structure RawData where
  time : List Int
deriving DecidableEq, Repr

/-- External collaborators, indexed by the recording's full path.  `Except.error`
models the call raising an exception with that message. -/
structure Oracles where
  parse : Path → Except String RawData
  classify : Path → Except String FixVal

/-- Configuration surface of the script: `log_level` (0 silent, 1 script
progress, 2 also classifier-internal progress) and `do_plot_data`. -/
structure Config where
  log_level : Nat
  do_plot_data : Bool

/-- One printed line, by print site, with the arguments that reach the format
string. -/
inductive Msg where
  | storeTo (f : Path)
  | processingFolder (i n : Nat)
  | folderEmpty
  | processingFile (i n : Nat)
  | loadingData (f : Path)
  | noData
  | runningClassification
  | errorInFile (f : Path) (e : String)
  | classificationFailed (f : Path)
  | savingImage (f : Path)
  | elapsed
deriving DecidableEq, Repr

/-- The mutable world threaded through the run: output-side files with their
contents, output-side directories, the printed lines in order, and event logs
of the `os.mkdir` calls and of the parser invocations. -/
structure St where
  files : List (Path × List Line)
  dirs : List Path
  out : List Msg
  mkdirCalls : List Path
  loads : List Path
deriving DecidableEq, Repr

/-- `os.path.isfile`. -/
def St.isfile (st : St) (p : Path) : Bool :=
  (st.files.lookup p).isSome

/-- `os.path.isdir`. -/
def St.isdir (st : St) (p : Path) : Bool :=
  st.dirs.contains p

/-- `os.path.exists`: a file or a directory is present at the path. -/
def St.existsPath (st : St) (p : Path) : Bool :=
  st.isfile p || st.isdir p

/-- `os.mkdir`, also recorded in the event log. -/
def St.mkdir (st : St) (p : Path) : St :=
  { st with dirs := st.dirs ++ [p], mkdirCalls := st.mkdirCalls ++ [p] }

/-- `print`. -/
def St.emit (st : St) (m : Msg) : St :=
  { st with out := st.out ++ [m] }

/-- Update an association list at a key, replacing the first binding or
appending a new one. -/
def setAssoc (fs : List (Path × List Line)) (p : Path) (c : List Line) :
    List (Path × List Line) :=
  match fs with
  | [] => [(p, c)]
  | (q, d) :: rest => if q = p then (p, c) :: rest else (q, d) :: setAssoc rest p c

/-- Write content at a path (used for `f.savefig` and inside `to_csv`). -/
def St.setFile (st : St) (p : Path) (c : List Line) : St :=
  { st with files := setAssoc st.files p c }

/-- `DataFrame.to_csv(path, mode='a', header=hdr, ...)`: append to the file's
current content (the empty content when the file does not exist) a header
line when `hdr` is true, then one data row per frame row. -/
def St.appendCsv (st : St) (p : Path) (cols : List String)
    (rows : List (List String)) (hdr : Bool) : St :=
  let old := (st.files.lookup p).getD []
  st.setFile p (old ++ (if hdr then [Line.header cols] else []) ++ rows.map Line.row)

/-- A directory of the data tree: its files and its subdirectories, in the
order the filesystem enumeration yields them. -/
inductive DirTree where
  | node (name : String) (files : List String) (subdirs : List DirTree)

/-- The directory's own name (one path component). -/
def DirTree.name : DirTree → String
  | .node n _ _ => n

/-- The directory's files. -/
def DirTree.filesOf : DirTree → List String
  | .node _ fs _ => fs

/-- The directory's subdirectories. -/
def DirTree.subdirs : DirTree → List DirTree
  | .node _ _ subs => subs

mutual
/-- `os.walk(top)` over the tree rooted (with path `top`) at `t`: top-down,
one `(dirpath, dirnames, filenames)` triple per directory, the root first,
then recursively each subdirectory in enumeration order. -/
def walkFrom (top : Path) (t : DirTree) : List (Path × List String × List String) :=
  match t with
  | .node _ fs subs => (top, subs.map DirTree.name, fs) :: walkList top subs

/-- `os.walk` continuation over a list of sibling subdirectories of the
directory at path `top`. -/
def walkList (top : Path) (ts : List DirTree) : List (Path × List String × List String) :=
  match ts with
  | [] => []
  | t :: rest => walkFrom (top ++ [t.name]) t ++ walkList top rest
end

/-- `folder.split(os.sep)[-1]`: the last path component. -/
def lastComp (p : Path) : String := p.getLastD ""

/-- `os.path.splitext(file)[0]`: drop the extension at the last dot, unless
every character before that dot is itself a dot (Python keeps `'.txt'`,
`'..txt'` whole). -/
def splitextStem (s : String) : String :=
  match (s.toList.reverse.takeWhile (· ≠ '.')).length, s.toList.contains '.' with
  | _, false => s
  | ext, true =>
    let base := s.toList.take (s.toList.length - ext - 1)
    if base.all (· = '.') then s else ⟨base⟩

/-- `'allfixations_{}.format(it)' + '.txt'`, the `it`-th suffixed variant. -/
def fmtFix (it : Nat) : String := "allfixations_" ++ toString it ++ ".txt"

/-- The `it`-th candidate output file name: the canonical name for `it = 0`,
the suffixed variant otherwise. -/
def cand : Nat → String
  | 0 => "allfixations.txt"
  | k + 1 => fmtFix (k + 1)

/-- The `for it in range(1,101)` allocation loop, entered with the current
candidate `f`, counter `it`, and the number of iterations the `range` still
holds (`101 - it`; the loop in fact always breaks at `it = 100` at the
latest because `it < 100` fails there).  An iteration whose candidate is an
existing file (and whose counter is below 100) moves to the next suffixed
variant; otherwise the loop breaks with the current candidate. -/
def allocLoop (isf : Path → Bool) (outRoot : Path) : Path → Nat → Nat → Path
  | f, _, 0 => f
  | f, it, fuel + 1 =>
    if isf f ∧ it < 100 then
      allocLoop isf outRoot (outRoot ++ [fmtFix it]) (it + 1) fuel
    else f

/-- `fix_file` after the allocation loop, starting from the canonical name
at counter 1 with the 100 iterations of `range(1,101)` ahead. -/
def alloc (isf : Path → Bool) (outRoot : Path) : Path :=
  allocLoop isf outRoot (outRoot ++ [cand 0]) 1 100

/-- Column names of the classifier's `fix` dict. -/
def FixVal.cols : FixVal → List String
  | .fls => []
  | .table c _ => c

/-- Rows of the classifier's `fix` dict. -/
def FixVal.rows : FixVal → List (List String)
  | .fls => []
  | .table _ r => r

/-- The body of the inner `for file_idx, file in enumerate(...)` loop (script
lines 181-229) for one recording.  Returns the new state and, when the parser
raised, the uncaught exception (which aborts every enclosing loop).  A raise
from the classifier is caught (`except Exception`), printed unconditionally,
and turned into a skip; a falsy `fix` is likewise a skip. -/
def processFile (cfg : Config) (orc : Oracles) (folder : Path) (outFold : Path)
    (fixFile : Path) (nFiles : Nat) (fileIdx : Nat) (file : String) (st : St) :
    St × Option String :=
  let st := if 0 < cfg.log_level then st.emit (.processingFile (fileIdx + 1) nFiles) else st
  let file_name := folder ++ [file]
  let st := if 0 < cfg.log_level then st.emit (.loadingData file_name) else st
  let st := { st with loads := st.loads ++ [file_name] }
  match orc.parse file_name with
  | .error e => (st, some e)
  | .ok data =>
    if data.time.length = 0 then
      (if 0 < cfg.log_level then st.emit .noData else st, none)
    else
      let st := if 0 < cfg.log_level then st.emit .runningClassification else st
      match orc.classify file_name with
      | .error e => (st.emit (.errorInFile file_name e), none)
      | .ok fix =>
        if !fix.truthy then
          (if 0 < cfg.log_level then st.emit (.classificationFailed file_name) else st, none)
        else if fix.neFalse then
          let st :=
            if cfg.do_plot_data then
              let save_file := outFold ++ [splitextStem file ++ ".png"]
              let st := if 0 < cfg.log_level then st.emit (.savingImage save_file) else st
              st.setFile save_file []
            else st
          let cols := fix.cols ++ ["participant", "trial"]
          let rows := fix.rows.map (fun r => r ++ [lastComp folder, splitextStem file])
          (st.appendCsv fixFile cols rows (!st.existsPath fixFile), none)
        else (st, none)

/-- The inner loop over a folder's files, with the running `file_idx`;
an uncaught exception from a file stops the iteration (and the whole run). -/
def runFiles (cfg : Config) (orc : Oracles) (folder : Path) (outFold : Path)
    (fixFile : Path) (nFiles : Nat) :
    Nat → List String → St → St × Option String
  | _, [], st => (st, none)
  | idx, file :: rest, st =>
    match processFile cfg orc folder outFold fixFile nFiles idx file st with
    | (st', some e) => (st', some e)
    | (st', none) => runFiles cfg orc folder outFold fixFile nFiles (idx + 1) rest st'

/-- The body of the outer `for folder_idx, folder in enumerate(all_folders)`
loop (script lines 166-229) for one participant folder: progress print, plot
subdirectory creation (when plotting is enabled, guarded by `isdir`), the
empty-folder skip, then the inner loop over the folder's files. -/
def processFolder (cfg : Config) (orc : Oracles) (outRoot : Path) (fixFile : Path)
    (nFolders : Nat) (folderIdx : Nat) (folder : Path) (files : List String)
    (st : St) : St × Option String :=
  let st := if 0 < cfg.log_level then st.emit (.processingFolder (folderIdx + 1) nFolders) else st
  let outFold := outRoot ++ [lastComp folder]
  let st :=
    if cfg.do_plot_data then (if st.isdir outFold then st else st.mkdir outFold) else st
  if files.length = 0 then
    (if 0 < cfg.log_level then st.emit .folderEmpty else st, none)
  else
    runFiles cfg orc folder outFold fixFile files.length 0 files st

/-- The outer loop over the participant folders, with the running
`folder_idx`. -/
def runFolders (cfg : Config) (orc : Oracles) (outRoot : Path) (fixFile : Path)
    (nFolders : Nat) : Nat → List (Path × List String) → St → St × Option String
  | _, [], st => (st, none)
  | idx, (folder, files) :: rest, st =>
    match processFolder cfg orc outRoot fixFile nFolders idx folder files st with
    | (st', some e) => (st', some e)
    | (st', none) => runFolders cfg orc outRoot fixFile nFolders (idx + 1) rest st'

mutual
/-- Refinement reference for the grouping claim: every directory strictly
below (at any depth under) the tree rooted at path `p`, in depth-first
pre-order, as `(directory path, directory name, files directly inside)`. -/
def specGroups (p : Path) : DirTree → List (Path × String × List String)
  | .node _ _ subs => specGroupsList p subs

/-- `specGroups` over a list of sibling subdirectories of the directory at
path `p`: each subdirectory is one group, followed by its own strict
descendants, then the later siblings. -/
def specGroupsList (p : Path) : List DirTree → List (Path × String × List String)
  | [] => []
  | s :: rest =>
    ((p ++ [s.name], s.name, s.filesOf) :: specGroups (p ++ [s.name]) s) ++
      specGroupsList p rest
end

/-- `all_folders` paired with `all_files`: the walk of the data root with its
first entry (the data root itself, `fold[1:]`) dropped, keeping each entry's
dirpath and filenames.  A missing or non-directory data root gives the empty
walk (Python's `os.walk` swallows the scandir error). -/
def groupsOf (dataPath : Path) (dataRoot : Option DirTree) : List (Path × List String) :=
  let fold := match dataRoot with
    | none => []
    | some t => walkFrom dataPath t
  (fold.drop 1).map (fun e => (e.1, e.2.2))

/-- The whole script run (lines 141-231): output-directory setup, folder
enumeration, output-file allocation, the nested loops, and the closing
elapsed-time print (unconditional, but skipped when an uncaught exception
aborted the loops). -/
def run (cfg : Config) (orc : Oracles) (dataPath : Path) (dataRoot : Option DirTree)
    (outRoot : Path) (st0 : St) : St × Option String :=
  let st := if st0.isdir outRoot then st0 else st0.mkdir outRoot
  let groups := groupsOf dataPath dataRoot
  let fixFile := alloc st.isfile outRoot
  let st := if 0 < cfg.log_level then st.emit (.storeTo fixFile) else st
  match runFolders cfg orc outRoot fixFile groups.length 0 groups st with
  | (st', some e) => (st', some e)
  | (st', none) => (st'.emit .elapsed, none)

/-- The state accumulated by `processFolder` before the empty-folder check:
the progress print and the plot-subdirectory creation. -/
def folderPre (cfg : Config) (outRoot folder : Path) (nFolders folderIdx : Nat) (st : St) : St :=
  let st := if 0 < cfg.log_level then st.emit (.processingFolder (folderIdx + 1) nFolders) else st
  let outFold := outRoot ++ [lastComp folder]
  if cfg.do_plot_data then (if st.isdir outFold then st else st.mkdir outFold) else st

/-- The allocator's result over successive runs against the same output
root: run `n+1` sees the initially present files plus the files the earlier
runs allocated (each run materialises its aggregate file at the returned
path), and returns `alloc` of that world. -/
def allocRuns (isf0 : Path → Bool) (out : Path) : Nat → List Path
  | 0 => []
  | n + 1 =>
    let prev := allocRuns isf0 out n
    prev ++ [alloc (fun p => isf0 p || prev.contains p) out]

/-- Proof gadget: read the decimal digits occurring in a candidate file name
back into the candidate index (`cand 0` has no digits and reads back 0). -/
def candIdx (s : String) : Nat :=
  (s.toList.filter fun c => '0' ≤ c ∧ c ≤ '9').foldl
    (fun a c => a * 10 + (c.toNat - '0'.toNat)) 0

/-- The all-empty starting state: nothing on the output side yet, nothing
printed, no events. -/
def emptySt : St := ⟨[], [], [], [], []⟩

/-- A parser that always raises (used to instantiate hypotheses at concrete
inputs). -/
def orcParseRaise : Oracles :=
  ⟨fun _ => .error "parse boom", fun _ => .ok .fls⟩

/-- A parser that returns one sample, with a classifier that always raises. -/
def orcClassifyRaise : Oracles :=
  ⟨fun _ => .ok ⟨[1]⟩, fun _ => .error "cls boom"⟩

/-- Is a line a header line? -/
def Line.isHeader : Line → Bool
  | .header _ => true
  | .row _ => false

/-- How many header lines a file content holds. -/
def headerCount (c : List Line) : Nat := (c.filter Line.isHeader).length

/-- The invariant maintained for the aggregate file when its path starts out
absent: the path never becomes a directory, and its file is either still
absent or holds exactly one header line. -/
def HeaderInv (F : Path) (st : St) : Prop :=
  F ∉ st.dirs ∧
  (st.files.lookup F = none ∨ ∃ c, st.files.lookup F = some c ∧ headerCount c = 1)

/-- A parser that returns an empty time series. -/
def orcEmptyData : Oracles :=
  ⟨fun _ => .ok ⟨[]⟩, fun _ => .ok .fls⟩

/-- A parser returning one sample with a classifier returning one fixation
of a single column. -/
def orcOneFix : Oracles :=
  ⟨fun _ => .ok ⟨[1]⟩, fun _ => .ok (.table ["dur"] [["5"]])⟩

/-- A classifier whose column shape differs between the two recordings of
`treeP2`. -/
def orcTwoShapes : Oracles :=
  ⟨fun _ => .ok ⟨[1]⟩,
   fun p => if p = ["data", "P1", "a.txt"] then .ok (.table ["u"] [["1"]])
            else .ok (.table ["v", "w"] [["2", "3"]])⟩

/-- A one-participant, two-recording data tree. -/
def treeP2 : DirTree := .node "example_data" [] [.node "P1" ["a.txt", "b.txt"] []]

/-- The pre-existing content of `allfixations_99.txt` from an earlier run. -/
def oldContent99 : List Line := [Line.header ["h"], Line.row ["veryold"]]

/-- An output root on which every candidate output file already exists:
`allfixations.txt` and `allfixations_1.txt` … `allfixations_98.txt` from 99
earlier runs, plus an `allfixations_99.txt` holding `oldContent99`. -/
def manyFixFiles : List (Path × List Line) :=
  (List.range 99).map (fun i => (["out", cand i], [Line.header ["h"], Line.row ["old"]])) ++
    [(["out", cand 99], oldContent99)]

/-- The state of an output root saturated with candidate files. -/
def saturatedSt : St := ⟨manyFixFiles, [["out"]], [], [], []⟩

/-- A state whose aggregate file already holds a first-seen shape (header
`u, participant, trial` and one row), against which a differently shaped
append will be made. -/
def mismatchSt : St :=
  ⟨[(["out", "allfixations.txt"],
     [Line.header ["u", "participant", "trial"], Line.row ["1", "P1", "a"]])],
   [["out"]], [], [], []⟩

/-- A one-participant, one-recording data tree. -/
def treeP1 : DirTree := .node "example_data" [] [.node "P1" ["a.txt"] []]

/-- A data tree with one empty participant group. -/
def treeEmptyGroup : DirTree := .node "example_data" [] [.node "Pempty" [] []]

/-- A nested data tree: a group at depth one with a subgroup at depth two. -/
def treeNested : DirTree :=
  .node "example_data" ["stray.txt"]
    [.node "P1" ["a.txt"] [.node "sub" ["b.txt"] []], .node "P2" [] []]

/-! ### Basic state lemmas -/

@[simp]
theorem St.loads_emit (st : St) (m : Msg) : (st.emit m).loads = st.loads := rfl

@[simp]
theorem St.loads_setFile (st : St) (p : Path) (c : List Line) :
    (st.setFile p c).loads = st.loads := rfl

@[simp]
theorem St.loads_appendCsv (st : St) (p : Path) (cols : List String)
    (rows : List (List String)) (hdr : Bool) :
    (st.appendCsv p cols rows hdr).loads = st.loads := rfl

@[simp]
theorem St.loads_mkdir (st : St) (p : Path) : (st.mkdir p).loads = st.loads := rfl

@[simp]
theorem St.loads_ite (c : Prop) [Decidable c] (a b : St) :
    (if c then a else b).loads = if c then a.loads else b.loads := by
  split <;> rfl

/-- Processing one file always records exactly one parser invocation, on that
file's path, whatever the outcome. -/
theorem processFile_loads (cfg : Config) (orc : Oracles) (folder outFold fixFile : Path)
    (nFiles fileIdx : Nat) (file : String) (st : St) :
    (processFile cfg orc folder outFold fixFile nFiles fileIdx file st).1.loads =
      st.loads ++ [folder ++ [file]] := by
  unfold processFile
  cases hp : orc.parse (folder ++ [file]) with
  | error e => simp [hp]
  | ok data =>
    by_cases hz : data.time.length = 0
    · simp [hp, hz]
    · cases hc : orc.classify (folder ++ [file]) with
      | error e => simp [hp, hz, hc]
      | ok fix =>
        by_cases ht : fix.truthy <;> by_cases hn : fix.neFalse <;>
          simp [hp, hz, hc, ht, hn]

/-- `runFiles` only ever appends to the parser-invocation log. -/
theorem runFiles_loads_mono (cfg : Config) (orc : Oracles) (folder outFold fixFile : Path)
    (nFiles : Nat) (p : Path) :
    ∀ (files : List String) (idx : Nat) (st : St), p ∈ st.loads →
      p ∈ (runFiles cfg orc folder outFold fixFile nFiles idx files st).1.loads := by
  intro files
  induction files with
  | nil => intro idx st h; simpa [runFiles] using h
  | cons f rest ih =>
    intro idx st h
    simp only [runFiles]
    cases hpf : processFile cfg orc folder outFold fixFile nFiles idx f st with
    | mk st' r =>
      have h2 : st'.loads = st.loads ++ [folder ++ [f]] := by
        have h3 := processFile_loads cfg orc folder outFold fixFile nFiles idx f st
        rw [hpf] at h3
        exact h3
      have hl : p ∈ st'.loads := by
        rw [h2]
        exact List.mem_append_left _ h
      cases r with
      | none => exact ih (idx + 1) st' hl
      | some e => simpa using hl

/-- `processFolder` only ever appends to the parser-invocation log. -/
theorem processFolder_loads_mono (cfg : Config) (orc : Oracles) (outRoot fixFile : Path)
    (nFolders folderIdx : Nat) (folder : Path) (files : List String) (st : St) (p : Path)
    (h : p ∈ st.loads) :
    p ∈ (processFolder cfg orc outRoot fixFile nFolders folderIdx folder files st).1.loads := by
  unfold processFolder
  by_cases hf : files.length = 0
  · simp [hf, h]
  · rw [if_neg hf]
    apply runFiles_loads_mono
    simp [h]

/-- `runFolders` only ever appends to the parser-invocation log. -/
theorem runFolders_loads_mono (cfg : Config) (orc : Oracles) (outRoot fixFile : Path)
    (nFolders : Nat) (p : Path) :
    ∀ (groups : List (Path × List String)) (idx : Nat) (st : St), p ∈ st.loads →
      p ∈ (runFolders cfg orc outRoot fixFile nFolders idx groups st).1.loads := by
  intro groups
  induction groups with
  | nil => intro idx st h; simpa [runFolders] using h
  | cons gp rest ih =>
    intro idx st h
    obtain ⟨folder, files⟩ := gp
    simp only [runFolders]
    cases hpf : processFolder cfg orc outRoot fixFile nFolders idx folder files st with
    | mk st' r =>
      have hl : p ∈ st'.loads := by
        have := processFolder_loads_mono cfg orc outRoot fixFile nFolders idx folder files st p h
        rw [hpf] at this
        exact this
      cases r with
      | none => exact ih (idx + 1) st' hl
      | some e => simpa using hl

/-- A raise from the parser is returned as the uncaught exception of the
file's processing. -/
theorem processFile_parse_err (cfg : Config) (orc : Oracles) (folder outFold fixFile : Path)
    (nFiles fileIdx : Nat) (file : String) (st : St) (e : String)
    (he : orc.parse (folder ++ [file]) = .error e) :
    (processFile cfg orc folder outFold fixFile nFiles fileIdx file st).2 = some e := by
  unfold processFile
  simp [he]

/-- When the parser returns, the file's processing never raises: empty data,
a classifier raise, and a falsy classification are all converted to skips. -/
theorem processFile_parse_ok (cfg : Config) (orc : Oracles) (folder outFold fixFile : Path)
    (nFiles fileIdx : Nat) (file : String) (st : St) (d : RawData)
    (hp : orc.parse (folder ++ [file]) = .ok d) :
    (processFile cfg orc folder outFold fixFile nFiles fileIdx file st).2 = none := by
  unfold processFile
  by_cases hz : d.time.length = 0
  · simp [hp, hz]
  · cases hc : orc.classify (folder ++ [file]) with
    | error e => simp [hp, hz, hc]
    | ok fix =>
      by_cases ht : fix.truthy <;> by_cases hn : fix.neFalse <;>
        simp [hp, hz, hc, ht, hn]

/-- Unfolding one step of the inner loop when the current file is skipped or
aggregated (no uncaught exception). -/
theorem runFiles_cons_of_none (cfg : Config) (orc : Oracles) (folder outFold fixFile : Path)
    (nFiles idx : Nat) (f : String) (rest : List String) (st st' : St)
    (hpf : processFile cfg orc folder outFold fixFile nFiles idx f st = (st', none)) :
    runFiles cfg orc folder outFold fixFile nFiles idx (f :: rest) st =
      runFiles cfg orc folder outFold fixFile nFiles (idx + 1) rest st' := by
  simp only [runFiles, hpf]

/-- A parser invocation recorded while processing the head file survives to
the end of the inner loop. -/
theorem runFiles_cons_mem (cfg : Config) (orc : Oracles) (folder outFold fixFile : Path)
    (nFiles idx : Nat) (f : String) (rest : List String) (st : St) (p : Path)
    (h : p ∈ (processFile cfg orc folder outFold fixFile nFiles idx f st).1.loads) :
    p ∈ (runFiles cfg orc folder outFold fixFile nFiles idx (f :: rest) st).1.loads := by
  simp only [runFiles]
  cases hpf : processFile cfg orc folder outFold fixFile nFiles idx f st with
  | mk st' r =>
    rw [hpf] at h
    cases r with
    | none => exact runFiles_loads_mono cfg orc folder outFold fixFile nFiles p rest (idx + 1) st' h
    | some e => simpa using h

/-- A parser invocation recorded while processing the head group survives to
the end of the outer loop. -/
theorem runFolders_cons_mem (cfg : Config) (orc : Oracles) (outRoot fixFile : Path)
    (nFolders idx : Nat) (folder : Path) (files : List String)
    (more : List (Path × List String)) (st : St) (p : Path)
    (h : p ∈ (processFolder cfg orc outRoot fixFile nFolders idx folder files st).1.loads) :
    p ∈ (runFolders cfg orc outRoot fixFile nFolders idx ((folder, files) :: more) st).1.loads := by
  simp only [runFolders]
  cases hpf : processFolder cfg orc outRoot fixFile nFolders idx folder files st with
  | mk st' r =>
    rw [hpf] at h
    cases r with
    | none => exact runFolders_loads_mono cfg orc outRoot fixFile nFolders p more (idx + 1) st' h
    | some e => simpa using h

/-- On a non-empty folder, `processFolder` is the inner loop started from the
`folderPre` state. -/
theorem processFolder_ne_empty (cfg : Config) (orc : Oracles) (outRoot fixFile : Path)
    (nFolders folderIdx : Nat) (folder : Path) (files : List String) (st : St)
    (hf : files.length ≠ 0) :
    processFolder cfg orc outRoot fixFile nFolders folderIdx folder files st =
      runFiles cfg orc folder (outRoot ++ [lastComp folder]) fixFile files.length 0 files
        (folderPre cfg outRoot folder nFolders folderIdx st) := by
  unfold processFolder folderPre
  rw [if_neg hf]

@[simp]
theorem folderPre_loads (cfg : Config) (outRoot folder : Path) (nFolders folderIdx : Nat)
    (st : St) : (folderPre cfg outRoot folder nFolders folderIdx st).loads = st.loads := by
  unfold folderPre
  split <;> split <;> simp

/-- Claim C1: an exception raised by the fixation-classification step is
caught and the batch continues with the next recording — likewise a falsy
classification return — whereas an exception raised by the raw-data parser
propagates and halts the whole batch: when the parser raises on recording
`f`, the outer loop stops with that exception and no further recording is
ever parsed (the parser-invocation log ends at `f`); when the parser
succeeds with nonempty data but classification raises or returns falsy on
`f`, the next recording `g` is still parsed. -/
theorem C1_classifier_caught_parser_fatal (cfg : Config) (orc : Oracles)
    (outRoot fixFile folder : Path) (f g : String) (rest : List String)
    (more : List (Path × List String)) (nF i : Nat) (st : St) :
    (∀ e, orc.parse (folder ++ [f]) = .error e →
      (runFolders cfg orc outRoot fixFile nF i ((folder, f :: g :: rest) :: more) st).2 = some e ∧
      (runFolders cfg orc outRoot fixFile nF i ((folder, f :: g :: rest) :: more) st).1.loads =
        st.loads ++ [folder ++ [f]]) ∧
    (∀ d, orc.parse (folder ++ [f]) = .ok d → d.time.length ≠ 0 →
      ((∃ e, orc.classify (folder ++ [f]) = .error e) ∨
        (∃ fix, orc.classify (folder ++ [f]) = .ok fix ∧ fix.truthy = false)) →
      folder ++ [g] ∈
        (runFolders cfg orc outRoot fixFile nF i ((folder, f :: g :: rest) :: more) st).1.loads) := by
  have hnf : (f :: g :: rest).length ≠ 0 := by simp
  have hPFeq := processFolder_ne_empty cfg orc outRoot fixFile nF i folder (f :: g :: rest) st hnf
  constructor
  · intro e he
    cases hP : processFile cfg orc folder (outRoot ++ [lastComp folder]) fixFile
        (f :: g :: rest).length 0 f (folderPre cfg outRoot folder nF i st) with
    | mk st1 r =>
      have hr : r = some e := by
        have h2 := processFile_parse_err cfg orc folder (outRoot ++ [lastComp folder]) fixFile
          (f :: g :: rest).length 0 f (folderPre cfg outRoot folder nF i st) e he
        rw [hP] at h2
        simpa using h2
      subst hr
      have hRF : runFiles cfg orc folder (outRoot ++ [lastComp folder]) fixFile
          (f :: g :: rest).length 0 (f :: g :: rest) (folderPre cfg outRoot folder nF i st) =
          (st1, some e) := by
        simp only [runFiles, hP]
      have hPF : processFolder cfg orc outRoot fixFile nF i folder (f :: g :: rest) st =
          (st1, some e) := by rw [hPFeq, hRF]
      have hloads : st1.loads = st.loads ++ [folder ++ [f]] := by
        have h3 := processFile_loads cfg orc folder (outRoot ++ [lastComp folder]) fixFile
          (f :: g :: rest).length 0 f (folderPre cfg outRoot folder nF i st)
        rw [hP] at h3
        simpa using h3
      constructor
      · simp only [runFolders, hPF]
      · simp only [runFolders, hPF]
        exact hloads
  · intro d hp hz _hcls
    apply runFolders_cons_mem
    rw [hPFeq]
    cases hP : processFile cfg orc folder (outRoot ++ [lastComp folder]) fixFile
        (f :: g :: rest).length 0 f (folderPre cfg outRoot folder nF i st) with
    | mk st1 r =>
      have hr : r = none := by
        have h2 := processFile_parse_ok cfg orc folder (outRoot ++ [lastComp folder]) fixFile
          (f :: g :: rest).length 0 f (folderPre cfg outRoot folder nF i st) d hp
        rw [hP] at h2
        simpa using h2
      subst hr
      rw [runFiles_cons_of_none cfg orc folder (outRoot ++ [lastComp folder]) fixFile
        (f :: g :: rest).length 0 f (g :: rest) _ st1 hP]
      apply runFiles_cons_mem
      rw [processFile_loads cfg orc folder (outRoot ++ [lastComp folder]) fixFile
        (f :: g :: rest).length 1 g st1]
      simp

/-- Witness for C1 at concrete inputs: with an always-raising parser the
batch halts with that exception having parsed only the first recording;
with a succeeding parser and an always-raising classifier the second
recording is still parsed. -/
theorem C1_classifier_caught_parser_fatal_witness :
    (runFolders ⟨1, false⟩ orcParseRaise ["out"] ["out", "allfixations.txt"] 1 0
        [(["data", "P1"], ["a.txt", "b.txt"])] emptySt).2 = some "parse boom" ∧
    ["data", "P1", "b.txt"] ∈
      (runFolders ⟨1, false⟩ orcClassifyRaise ["out"] ["out", "allfixations.txt"] 1 0
        [(["data", "P1"], ["a.txt", "b.txt"])] emptySt).1.loads := by
  constructor
  · exact ((C1_classifier_caught_parser_fatal ⟨1, false⟩ orcParseRaise ["out"]
      ["out", "allfixations.txt"] ["data", "P1"] "a.txt" "b.txt" [] [] 1 0 emptySt).1
      "parse boom" rfl).1
  · exact (C1_classifier_caught_parser_fatal ⟨1, false⟩ orcClassifyRaise ["out"]
      ["out", "allfixations.txt"] ["data", "P1"] "a.txt" "b.txt" [] [] 1 0 emptySt).2
      ⟨[1]⟩ rfl (by decide) (Or.inl ⟨"cls boom", rfl⟩)

/-! ### The output-path allocator -/

theorem candIdx_cand : ∀ i, i < 100 → candIdx (cand i) = i := by decide

theorem cand_inj {i j : Nat} (hi : i < 100) (hj : j < 100) (h : cand i = cand j) : i = j := by
  have h1 := candIdx_cand i hi
  have h2 := candIdx_cand j hj
  rw [h] at h1
  omega

/-- Running the allocation loop from candidate `s` at counter `s + 1`: the
first free candidate (within the effectively probed range) is returned. -/
theorem allocLoop_reach (isf : Path → Bool) (out : Path) :
    ∀ (d s : Nat), s + d ≤ 98 →
      (∀ j, s ≤ j → j < s + d → isf (out ++ [cand j]) = true) →
      isf (out ++ [cand (s + d)]) = false →
      allocLoop isf out (out ++ [cand s]) (s + 1) (100 - s) = out ++ [cand (s + d)] := by
  intro d
  induction d with
  | zero =>
    intro s hle _ hfree
    have hf : 100 - s = (99 - s) + 1 := by omega
    rw [hf]
    simp only [allocLoop]
    rw [if_neg (by
      rintro ⟨hc, -⟩
      simp only [Nat.add_zero] at hfree
      rw [hfree] at hc
      exact Bool.false_ne_true hc)]
    simp
  | succ d ih =>
    intro s hle hall hfree
    have hf : 100 - s = (100 - (s + 1)) + 1 := by omega
    rw [hf]
    simp only [allocLoop]
    rw [if_pos ⟨hall s (Nat.le_refl s) (by omega), by omega⟩]
    have he : (fmtFix (s + 1) : String) = cand (s + 1) := rfl
    rw [he]
    have h2 := ih (s + 1) (by omega) (fun j hj1 hj2 => hall j (by omega) (by omega))
      (by have h3 : s + 1 + d = s + (d + 1) := by omega
          rw [h3]; exact hfree)
    have h3 : s + 1 + d = s + (d + 1) := by omega
    rw [h3] at h2
    exact h2

/-- Running the allocation loop from candidate `s` at counter `s + 1` when
every candidate up to `cand 98` is an existing file: the loop runs out of
iterations and falls back to `cand 99`, whether or not a file exists there. -/
theorem allocLoop_fallback (isf : Path → Bool) (out : Path) :
    ∀ (d s : Nat), s + d = 99 →
      (∀ j, s ≤ j → j ≤ 98 → isf (out ++ [cand j]) = true) →
      allocLoop isf out (out ++ [cand s]) (s + 1) (100 - s) = out ++ [cand 99] := by
  intro d
  induction d with
  | zero =>
    intro s h99 _
    have hs : s = 99 := by omega
    subst hs
    have hf : (100 : Nat) - 99 = 0 + 1 := by omega
    rw [hf]
    simp only [allocLoop]
    rw [if_neg (by rintro ⟨-, hc⟩; omega)]
  | succ d ih =>
    intro s h99 hall
    have hf : 100 - s = (100 - (s + 1)) + 1 := by omega
    rw [hf]
    simp only [allocLoop]
    rw [if_pos ⟨hall s (Nat.le_refl s) (by omega), by omega⟩]
    have he : (fmtFix (s + 1) : String) = cand (s + 1) := rfl
    rw [he]
    exact ih (s + 1) (by omega) (fun j hj1 hj2 => hall j (by omega) hj2)

/-- The canonical name is returned when no file exists there. -/
theorem alloc_base (isf : Path → Bool) (out : Path)
    (hfree : isf (out ++ [cand 0]) = false) : alloc isf out = out ++ [cand 0] := by
  have h := allocLoop_reach isf out 0 0 (by omega) (by omega) (by simpa using hfree)
  simpa [alloc] using h

/-- The first candidate (within the effectively probed range `0..98`) at
which no file exists is returned. -/
theorem alloc_first_free (isf : Path → Bool) (out : Path) (k : Nat) (hk : k ≤ 98)
    (hall : ∀ j, j < k → isf (out ++ [cand j]) = true)
    (hfree : isf (out ++ [cand k]) = false) : alloc isf out = out ++ [cand k] := by
  have h := allocLoop_reach isf out k 0 (by omega)
    (fun j hj1 hj2 => hall j (by omega)) (by simpa using hfree)
  simpa [alloc] using h

/-- When every probed candidate exists, the allocator falls back to
`cand 99` (without that fallback being guarded by an existence check). -/
theorem alloc_fallback_all (isf : Path → Bool) (out : Path)
    (hall : ∀ j, j ≤ 98 → isf (out ++ [cand j]) = true) :
    alloc isf out = out ++ [cand 99] := by
  have h := allocLoop_fallback isf out 99 0 (by omega) (fun j hj1 hj2 => hall j hj2)
  simpa [alloc] using h

/-- Against an output root initially free of candidate files, run `n + 1`
returns candidate `n`, so the first `n` runs return the first `n`
candidates in order. -/
theorem allocRuns_eq (isf0 : Path → Bool) (out : Path)
    (hfresh : ∀ j, j < 100 → isf0 (out ++ [cand j]) = false) :
    ∀ n, n ≤ 100 → allocRuns isf0 out n = (List.range n).map (fun i => out ++ [cand i]) := by
  intro n
  induction n with
  | zero => intro _; rfl
  | succ n ih =>
    intro h
    have hprev := ih (by omega)
    rw [allocRuns]
    simp only [hprev, List.range_succ, List.map_append, List.map_cons, List.map_nil]
    congr 1
    have hmem : ∀ j, j < n →
        (fun p => isf0 p || ((List.range n).map (fun i => out ++ [cand i])).contains p)
          (out ++ [cand j]) = true := by
      intro j hj
      simp only [Bool.or_eq_true]
      exact Or.inr (List.elem_eq_true_of_mem
        (List.mem_map.mpr ⟨j, List.mem_range.mpr hj, rfl⟩))
    have hfree : ∀ k, n ≤ k → k < 100 →
        (fun p => isf0 p || ((List.range n).map (fun i => out ++ [cand i])).contains p)
          (out ++ [cand k]) = false := by
      intro k hk1 hk2
      simp only [Bool.or_eq_false_iff]
      refine ⟨hfresh k hk2, ?_⟩
      rw [Bool.eq_false_iff]
      intro hc
      obtain ⟨i, hi, he⟩ := List.mem_map.mp (List.mem_of_elem_eq_true hc)
      have hi' : i < n := List.mem_range.mp hi
      have hik : i = k := cand_inj (by omega) hk2 (by simpa using List.append_cancel_left he)
      omega
    by_cases hn : n ≤ 98
    · rw [alloc_first_free _ out n hn (fun j hj => hmem j hj) (hfree n (Nat.le_refl n) (by omega))]
    · have hn99 : n = 99 := by omega
      subst hn99
      rw [alloc_fallback_all _ out (fun j hj => hmem j (by omega))]

/-- Claim C2: the output-path allocation returns the canonical path
`allfixations.txt` when no file exists there; otherwise it probes the
suffixed variants `allfixations_1.txt`, `allfixations_2.txt`, ... in strictly
increasing order and returns the first probed path at which no file exists;
the probing is bounded (the loop counter never passes 100, the function is
total), and when every probed variant exists it falls back to the last
variant `allfixations_99.txt` without that choice being guarded by an
existence check.  Consequently, for `N ≤ 100` successive runs against the
same, initially candidate-free, output root, the allocator returns `N`
distinct paths. -/
theorem C2_output_path_allocation (isf isf0 : Path → Bool) (out : Path) (N : Nat) :
    (isf (out ++ [cand 0]) = false → alloc isf out = out ++ [cand 0]) ∧
    (∀ k, k ≤ 98 → (∀ j, j < k → isf (out ++ [cand j]) = true) →
      isf (out ++ [cand k]) = false → alloc isf out = out ++ [cand k]) ∧
    ((∀ j, j ≤ 98 → isf (out ++ [cand j]) = true) → alloc isf out = out ++ [cand 99]) ∧
    ((∀ j, j < 100 → isf0 (out ++ [cand j]) = false) → N ≤ 100 →
      (allocRuns isf0 out N).Nodup) := by
  refine ⟨alloc_base isf out, fun k hk => alloc_first_free isf out k hk,
    alloc_fallback_all isf out, fun hfresh hN => ?_⟩
  rw [allocRuns_eq isf0 out hfresh N hN]
  refine List.Nodup.map_on ?_ (List.nodup_range N)
  intro i hi j hj he
  exact cand_inj (by have := List.mem_range.mp hi; omega)
    (by have := List.mem_range.mp hj; omega) (by simpa using List.append_cancel_left he)

/-- Witness for C2 at concrete inputs: on an empty output root the canonical
path is returned, and 100 successive runs return 100 distinct paths. -/
theorem C2_output_path_allocation_witness :
    alloc (fun _ => false) ["out"] = ["out", "allfixations.txt"] ∧
    (allocRuns (fun _ => false) ["out"] 100).Nodup := by
  refine ⟨(C2_output_path_allocation (fun _ => false) (fun _ => false) ["out"] 100).1 rfl, ?_⟩
  exact (C2_output_path_allocation (fun _ => false) (fun _ => false) ["out"] 100).2.2.2
    (fun j _ => rfl) (by omega)

/-! ### More state projection lemmas -/

@[simp]
theorem St.files_emit (st : St) (m : Msg) : (st.emit m).files = st.files := rfl

@[simp]
theorem St.dirs_emit (st : St) (m : Msg) : (st.emit m).dirs = st.dirs := rfl

@[simp]
theorem St.out_emit (st : St) (m : Msg) : (st.emit m).out = st.out ++ [m] := rfl

@[simp]
theorem St.files_mkdir (st : St) (p : Path) : (st.mkdir p).files = st.files := rfl

@[simp]
theorem St.dirs_mkdir (st : St) (p : Path) : (st.mkdir p).dirs = st.dirs ++ [p] := rfl

@[simp]
theorem St.out_mkdir (st : St) (p : Path) : (st.mkdir p).out = st.out := rfl

@[simp]
theorem St.out_setFile (st : St) (p : Path) (c : List Line) : (st.setFile p c).out = st.out := rfl

@[simp]
theorem St.dirs_setFile (st : St) (p : Path) (c : List Line) : (st.setFile p c).dirs = st.dirs := rfl

@[simp]
theorem St.files_setFile (st : St) (p : Path) (c : List Line) :
    (st.setFile p c).files = setAssoc st.files p c := rfl

@[simp]
theorem St.out_appendCsv (st : St) (p : Path) (cols : List String)
    (rows : List (List String)) (hdr : Bool) : (st.appendCsv p cols rows hdr).out = st.out := rfl

@[simp]
theorem St.dirs_appendCsv (st : St) (p : Path) (cols : List String)
    (rows : List (List String)) (hdr : Bool) : (st.appendCsv p cols rows hdr).dirs = st.dirs := rfl

/-! ### Claim C5: missing data root -/

/-- Claim C5 (amended): when the data root does not exist or is not a
directory, `os.walk` yields nothing, so zero participant groups are
enumerated, zero recordings are parsed, and the run completes normally
with the closing summary — no error of any kind is raised before or during
processing. -/
theorem C5_missing_root_completes_normally (cfg : Config) (orc : Oracles)
    (dataPath outRoot : Path) (st0 : St) :
    groupsOf dataPath none = [] ∧
    (run cfg orc dataPath none outRoot st0).2 = none ∧
    (run cfg orc dataPath none outRoot st0).1.loads = st0.loads ∧
    Msg.elapsed ∈ (run cfg orc dataPath none outRoot st0).1.out := by
  refine ⟨rfl, ?_, ?_, ?_⟩
  · simp [run, groupsOf, runFolders]
  · simp only [run, groupsOf, runFolders]
    split <;> simp
  · simp [run, groupsOf, runFolders]

/-- Counterexample to Claim C5 as stated: at a concrete configuration with a
missing data root the run does not fail — it finishes with no exception and
prints the closing summary (there is no ConfigurationError anywhere in the
code). -/
theorem C5_missing_root_counterexample :
    (run ⟨1, true⟩ orcClassifyRaise ["data"] none ["out"] emptySt).2 = none ∧
    (run ⟨1, true⟩ orcClassifyRaise ["data"] none ["out"] emptySt).1.loads = [] ∧
    Msg.elapsed ∈ (run ⟨1, true⟩ orcClassifyRaise ["data"] none ["out"] emptySt).1.out := by
  decide

/-! ### Claim C6: zero-sample recordings -/

/-- Claim C6: a recording whose parsed time series has zero samples
contributes nothing — the output files (in particular the aggregate table)
and the directories are untouched — is reported as skipped via the
no-data message exactly when verbosity ≥ 1 (and never as an error), and the
batch continues with the next recording. -/
theorem C6_empty_recording_skipped (cfg : Config) (orc : Oracles)
    (folder outFold fixFile : Path) (nFiles idx : Nat) (f : String)
    (rest : List String) (st : St) (d : RawData)
    (hp : orc.parse (folder ++ [f]) = .ok d) (hz : d.time.length = 0) :
    (processFile cfg orc folder outFold fixFile nFiles idx f st).1.files = st.files ∧
    (processFile cfg orc folder outFold fixFile nFiles idx f st).1.dirs = st.dirs ∧
    (processFile cfg orc folder outFold fixFile nFiles idx f st).1.out =
      st.out ++ (if 0 < cfg.log_level then
        [Msg.processingFile (idx + 1) nFiles, Msg.loadingData (folder ++ [f]), Msg.noData]
        else []) ∧
    (processFile cfg orc folder outFold fixFile nFiles idx f st).2 = none ∧
    runFiles cfg orc folder outFold fixFile nFiles idx (f :: rest) st =
      runFiles cfg orc folder outFold fixFile nFiles (idx + 1) rest
        (processFile cfg orc folder outFold fixFile nFiles idx f st).1 := by
  have h2 := processFile_parse_ok cfg orc folder outFold fixFile nFiles idx f st d hp
  refine ⟨?_, ?_, ?_, h2, ?_⟩
  · unfold processFile
    simp [hp, hz]
    split <;> rfl
  · unfold processFile
    simp [hp, hz]
    split <;> rfl
  · unfold processFile
    simp [hp, hz]
    by_cases hl : 0 < cfg.log_level <;> simp [hl]
  · have hres : processFile cfg orc folder outFold fixFile nFiles idx f st =
        ((processFile cfg orc folder outFold fixFile nFiles idx f st).1, none) := by
      rw [← h2]
    exact runFiles_cons_of_none cfg orc folder outFold fixFile nFiles idx f rest st _ hres

/-- Witness for C6 at concrete inputs: a parser returning zero samples leaves
the files untouched, prints the skip message at verbosity 1, and does not
abort. -/
theorem C6_empty_recording_skipped_witness :
    (processFile ⟨1, false⟩ orcEmptyData ["data", "P1"] ["out", "P1"]
      ["out", "allfixations.txt"] 1 0 "a.txt" emptySt).1.files = emptySt.files ∧
    (processFile ⟨1, false⟩ orcEmptyData ["data", "P1"] ["out", "P1"]
      ["out", "allfixations.txt"] 1 0 "a.txt" emptySt).1.out =
      emptySt.out ++ [Msg.processingFile 1 1, Msg.loadingData ["data", "P1", "a.txt"],
        Msg.noData] ∧
    (processFile ⟨1, false⟩ orcEmptyData ["data", "P1"] ["out", "P1"]
      ["out", "allfixations.txt"] 1 0 "a.txt" emptySt).2 = none := by
  have h := C6_empty_recording_skipped ⟨1, false⟩ orcEmptyData ["data", "P1"] ["out", "P1"]
    ["out", "allfixations.txt"] 1 0 "a.txt" [] emptySt ⟨[]⟩ rfl rfl
  exact ⟨h.1, by rw [h.2.2.1]; rfl, h.2.2.2.1⟩

/-! ### Claim C8: output at verbosity 0 -/

@[simp]
theorem St.out_ite (c : Prop) [Decidable c] (a b : St) :
    (if c then a else b).out = if c then a.out else b.out := by
  split <;> rfl

@[simp]
theorem St.files_ite (c : Prop) [Decidable c] (a b : St) :
    (if c then a else b).files = if c then a.files else b.files := by
  split <;> rfl

@[simp]
theorem St.dirs_ite (c : Prop) [Decidable c] (a b : St) :
    (if c then a else b).dirs = if c then a.dirs else b.dirs := by
  split <;> rfl

/-- At verbosity 0 a single file's processing prints either nothing or
exactly the unconditional classification-error line. -/
theorem processFile_out_lvl0 (cfg : Config) (orc : Oracles) (folder outFold fixFile : Path)
    (nFiles idx : Nat) (f : String) (st : St) (hl : cfg.log_level = 0) :
    (processFile cfg orc folder outFold fixFile nFiles idx f st).1.out = st.out ∨
    ∃ e, (processFile cfg orc folder outFold fixFile nFiles idx f st).1.out =
      st.out ++ [Msg.errorInFile (folder ++ [f]) e] := by
  unfold processFile
  cases hp : orc.parse (folder ++ [f]) with
  | error e => left; simp [hl, hp]
  | ok d =>
    by_cases hz : d.time.length = 0
    · left; simp [hl, hp, hz]
    · cases hc : orc.classify (folder ++ [f]) with
      | error e => right; exact ⟨e, by simp [hl, hp, hz, hc]⟩
      | ok fix =>
        left
        by_cases ht : fix.truthy <;> by_cases hn : fix.neFalse <;>
          simp [hl, hp, hz, hc, ht, hn]

/-- At verbosity 0 the inner loop prints only classification-error lines. -/
theorem runFiles_out_lvl0 (cfg : Config) (orc : Oracles) (folder outFold fixFile : Path)
    (nFiles : Nat) (hl : cfg.log_level = 0) :
    ∀ (files : List String) (idx : Nat) (st : St),
      ∀ m ∈ (runFiles cfg orc folder outFold fixFile nFiles idx files st).1.out,
        m ∈ st.out ∨ ∃ p e, m = Msg.errorInFile p e := by
  intro files
  induction files with
  | nil => intro idx st m hm; exact Or.inl (by simpa [runFiles] using hm)
  | cons f rest ih =>
    intro idx st m hm
    cases hpf : processFile cfg orc folder outFold fixFile nFiles idx f st with
    | mk st' r =>
      have hout := processFile_out_lvl0 cfg orc folder outFold fixFile nFiles idx f st hl
      rw [hpf] at hout
      have hstep : ∀ m' ∈ st'.out, m' ∈ st.out ∨ ∃ p e, m' = Msg.errorInFile p e := by
        intro m' hm'
        rcases hout with h | ⟨e, h⟩
        · exact Or.inl (h ▸ hm')
        · rw [show ((st', r).1 : St) = st' from rfl] at h
          rw [h] at hm'
          rcases List.mem_append.mp hm' with h1 | h1
          · exact Or.inl h1
          · exact Or.inr ⟨folder ++ [f], e, by simpa using h1⟩
      cases r with
      | some e =>
        have heq : runFiles cfg orc folder outFold fixFile nFiles idx (f :: rest) st =
            (st', some e) := by simp only [runFiles, hpf]
        rw [heq] at hm
        exact hstep m hm
      | none =>
        rw [runFiles_cons_of_none cfg orc folder outFold fixFile nFiles idx f rest st st' hpf]
          at hm
        rcases ih (idx + 1) st' m hm with h1 | h1
        · exact hstep m h1
        · exact Or.inr h1

@[simp]
theorem folderPre_out_lvl0 (cfg : Config) (outRoot folder : Path) (nFolders folderIdx : Nat)
    (st : St) (hl : cfg.log_level = 0) :
    (folderPre cfg outRoot folder nFolders folderIdx st).out = st.out := by
  simp [folderPre, hl]

/-- At verbosity 0 one folder's processing prints only classification-error
lines. -/
theorem processFolder_out_lvl0 (cfg : Config) (orc : Oracles) (outRoot fixFile : Path)
    (nFolders folderIdx : Nat) (folder : Path) (files : List String) (st : St)
    (hl : cfg.log_level = 0) :
    ∀ m ∈ (processFolder cfg orc outRoot fixFile nFolders folderIdx folder files st).1.out,
      m ∈ st.out ∨ ∃ p e, m = Msg.errorInFile p e := by
  intro m hm
  by_cases hf : files.length = 0
  · left
    unfold processFolder at hm
    rw [if_pos hf] at hm
    simpa [hl] using hm
  · rw [processFolder_ne_empty cfg orc outRoot fixFile nFolders folderIdx folder files st hf]
      at hm
    have h1 := runFiles_out_lvl0 cfg orc folder (outRoot ++ [lastComp folder]) fixFile
      files.length hl files 0 (folderPre cfg outRoot folder nFolders folderIdx st) m hm
    rcases h1 with h1 | h1
    · exact Or.inl (by simpa [hl] using h1)
    · exact Or.inr h1

/-- At verbosity 0 the outer loop prints only classification-error lines. -/
theorem runFolders_out_lvl0 (cfg : Config) (orc : Oracles) (outRoot fixFile : Path)
    (nFolders : Nat) (hl : cfg.log_level = 0) :
    ∀ (groups : List (Path × List String)) (idx : Nat) (st : St),
      ∀ m ∈ (runFolders cfg orc outRoot fixFile nFolders idx groups st).1.out,
        m ∈ st.out ∨ ∃ p e, m = Msg.errorInFile p e := by
  intro groups
  induction groups with
  | nil => intro idx st m hm; exact Or.inl (by simpa [runFolders] using hm)
  | cons gp rest ih =>
    intro idx st m hm
    obtain ⟨folder, files⟩ := gp
    cases hpf : processFolder cfg orc outRoot fixFile nFolders idx folder files st with
    | mk st' r =>
      have hstep : ∀ m' ∈ st'.out, m' ∈ st.out ∨ ∃ p e, m' = Msg.errorInFile p e := by
        intro m' hm'
        have := processFolder_out_lvl0 cfg orc outRoot fixFile nFolders idx folder files st hl m'
        rw [hpf] at this
        exact this hm'
      cases r with
      | some e =>
        have heq : runFolders cfg orc outRoot fixFile nFolders idx ((folder, files) :: rest) st =
            (st', some e) := by simp only [runFolders, hpf]
        rw [heq] at hm
        exact hstep m hm
      | none =>
        have heq : runFolders cfg orc outRoot fixFile nFolders idx ((folder, files) :: rest) st =
            runFolders cfg orc outRoot fixFile nFolders (idx + 1) rest st' := by
          simp only [runFolders, hpf]
        rw [heq] at hm
        rcases ih (idx + 1) st' m hm with h1 | h1
        · exact hstep m h1
        · exact Or.inr h1

/-- Claim C8 (amended): at verbosity 0 the per-file progress and skip
messages are suppressed — everything the run prints is either a
classification-error line (printed unconditionally by the except branch) or
the closing elapsed-time summary (printed unconditionally whenever no
uncaught exception aborted the run) — but the run is not silent in general:
those two kinds of lines are still printed at verbosity 0. -/
theorem C8_verbosity0_not_fully_silent (cfg : Config) (orc : Oracles)
    (dataPath : Path) (dataRoot : Option DirTree) (outRoot : Path) (st0 : St)
    (hl : cfg.log_level = 0) :
    (∀ m ∈ (run cfg orc dataPath dataRoot outRoot st0).1.out,
      m ∈ st0.out ∨ (∃ p e, m = Msg.errorInFile p e) ∨ m = Msg.elapsed) ∧
    ((run cfg orc dataPath dataRoot outRoot st0).2 = none →
      Msg.elapsed ∈ (run cfg orc dataPath dataRoot outRoot st0).1.out) := by
  unfold run
  simp only [hl, Nat.lt_irrefl, if_false]
  cases hrf : runFolders cfg orc outRoot
      (alloc (if st0.isdir outRoot then st0 else st0.mkdir outRoot).isfile outRoot)
      (groupsOf dataPath dataRoot).length 0 (groupsOf dataPath dataRoot)
      (if st0.isdir outRoot then st0 else st0.mkdir outRoot) with
  | mk st' r =>
    have hstep : ∀ m' ∈ st'.out, m' ∈ st0.out ∨ ∃ p e, m' = Msg.errorInFile p e := by
      intro m' hm'
      have h1 := runFolders_out_lvl0 cfg orc outRoot
        (alloc (if st0.isdir outRoot then st0 else st0.mkdir outRoot).isfile outRoot)
        (groupsOf dataPath dataRoot).length hl (groupsOf dataPath dataRoot) 0
        (if st0.isdir outRoot then st0 else st0.mkdir outRoot) m'
      rw [hrf] at h1
      rcases h1 hm' with h2 | h2
      · left
        rcases (show m' ∈ (if st0.isdir outRoot then st0.out else st0.out) from by
          simpa using h2) with h3
        simpa using h3
      · exact Or.inr h2
    cases r with
    | some e =>
      refine ⟨?_, ?_⟩
      · intro m hm
        rcases hstep m hm with h | h
        · exact Or.inl h
        · exact Or.inr (Or.inl h)
      · intro h
        exact absurd h (by simp)
    | none =>
      refine ⟨?_, ?_⟩
      · intro m hm
        rcases (show m ∈ st'.out ∨ m = Msg.elapsed from by simpa using hm) with h1 | h1
        · rcases hstep m h1 with h | h
          · exact Or.inl h
          · exact Or.inr (Or.inl h)
        · exact Or.inr (Or.inr h1)
      · intro _
        simp

/-- Counterexample to Claim C8 as stated: at verbosity 0, a run over one
recording whose classification raises still prints two lines — the
classification-error message and the elapsed-time summary. -/
theorem C8_verbosity0_counterexample :
    (run ⟨0, false⟩ orcClassifyRaise ["data"] (some treeP1) ["out"] emptySt).1.out =
      [Msg.errorInFile ["data", "P1", "a.txt"] "cls boom", Msg.elapsed] ∧
    (run ⟨0, false⟩ orcClassifyRaise ["data"] (some treeP1) ["out"] emptySt).1.out ≠ [] := by
  decide

/-- Witness for the amended C8 at concrete inputs: the suppressed no-data
skip message indeed never shows up in a verbosity-0 run. -/
theorem C8_verbosity0_witness :
    Msg.noData ∉ (run ⟨0, true⟩ orcEmptyData ["data"] (some treeP1) ["out"] emptySt).1.out := by
  intro hm
  rcases (C8_verbosity0_not_fully_silent ⟨0, true⟩ orcEmptyData ["data"] (some treeP1)
      ["out"] emptySt rfl).1 Msg.noData hm with h | ⟨p, e, h⟩ | h
  · simp [emptySt] at h
  · exact absurd h (by simp)
  · exact absurd h (by simp)

/-! ### Aggregate-file content lemmas -/

theorem lookup_setAssoc_self (p : Path) (c : List Line) :
    ∀ fs, (setAssoc fs p c).lookup p = some c := by
  intro fs
  induction fs with
  | nil => simp [setAssoc, List.lookup]
  | cons qd rest ih =>
    obtain ⟨q, d⟩ := qd
    by_cases hq : q = p
    · simp [setAssoc, hq, List.lookup]
    · simp only [setAssoc, if_neg hq, List.lookup]
      have : (p == q) = false := by
        simp [beq_eq_false_iff_ne]
        exact fun he => hq he.symm
      rw [this]
      exact ih

theorem lookup_setAssoc_ne (p r : Path) (c : List Line) (hne : r ≠ p) :
    ∀ fs, (setAssoc fs p c).lookup r = fs.lookup r := by
  intro fs
  induction fs with
  | nil =>
    have hrp : (r == p) = false := by simp [beq_eq_false_iff_ne, hne]
    simp [setAssoc, List.lookup, hrp]
  | cons qd rest ih =>
    obtain ⟨q, d⟩ := qd
    by_cases hq : q = p
    · subst hq
      simp only [setAssoc, if_pos rfl, List.lookup]
      have : (r == q) = false := by simp [beq_eq_false_iff_ne, hne]
      rw [this]
    · simp only [setAssoc, if_neg hq, List.lookup]
      cases hrq : (r == q) with
      | true => rfl
      | false => exact ih

@[simp]
theorem headerCount_nil : headerCount [] = 0 := rfl

@[simp]
theorem headerCount_append (a b : List Line) :
    headerCount (a ++ b) = headerCount a + headerCount b := by
  simp [headerCount, List.filter_append]

@[simp]
theorem headerCount_header_cons (cols : List String) (c : List Line) :
    headerCount (Line.header cols :: c) = headerCount c + 1 := by
  simp [headerCount, Line.isHeader]

@[simp]
theorem headerCount_row_cons (v : List String) (c : List Line) :
    headerCount (Line.row v :: c) = headerCount c := by
  simp [headerCount, Line.isHeader]

@[simp]
theorem headerCount_rowsMap (rows : List (List String)) :
    headerCount (rows.map Line.row) = 0 := by
  induction rows with
  | nil => rfl
  | cons r rest ih => simpa using ih

/-- What a `to_csv` append leaves at the destination. -/
theorem appendCsv_lookup_self (st : St) (p : Path) (cols : List String)
    (rows : List (List String)) (hdr : Bool) :
    (st.appendCsv p cols rows hdr).files.lookup p =
      some ((st.files.lookup p).getD [] ++ (if hdr then [Line.header cols] else []) ++
        rows.map Line.row) := by
  unfold St.appendCsv St.setFile
  exact lookup_setAssoc_self p _ st.files

/-- A `to_csv` append leaves every other path alone. -/
theorem appendCsv_lookup_ne (st : St) (p r : Path) (cols : List String)
    (rows : List (List String)) (hdr : Bool) (hne : r ≠ p) :
    (st.appendCsv p cols rows hdr).files.lookup r = st.files.lookup r := by
  unfold St.appendCsv St.setFile
  exact lookup_setAssoc_ne p r _ hne st.files

theorem contains_eq_false_of_not_mem {l : List Path} {p : Path} (h : p ∉ l) :
    l.contains p = false := by
  rw [Bool.eq_false_iff]
  intro hc
  exact h (List.mem_of_elem_eq_true hc)

@[simp]
theorem St.existsPath_emit (st : St) (m : Msg) (p : Path) :
    (st.emit m).existsPath p = st.existsPath p := rfl

theorem ite_bang {α : Sort u} (b : Bool) (x y : α) :
    (if (!b) = true then x else y) = if b = true then y else x := by
  cases b <;> simp

theorem lookup_none_of_isfile_false (st : St) (p : Path) (h : st.isfile p = false) :
    st.files.lookup p = none := by
  unfold St.isfile at h
  cases hx : st.files.lookup p with
  | none => rfl
  | some c => rw [hx] at h; exact absurd h (by simp)

theorem St.isfile_true_of_lookup (st : St) (p : Path) (c : List Line)
    (h : st.files.lookup p = some c) : st.isfile p = true := by
  unfold St.isfile
  rw [h]
  rfl

theorem St.existsPath_true_of_isfile (st : St) (p : Path) (h : st.isfile p = true) :
    st.existsPath p = true := by
  unfold St.existsPath
  rw [h]
  rfl

theorem St.existsPath_false_parts (st : St) (p : Path) (h : st.existsPath p = false) :
    st.isfile p = false ∧ st.isdir p = false := by
  unfold St.existsPath at h
  exact Bool.or_eq_false_iff.mp h

theorem headerInv_emit (F : Path) (st : St) (m : Msg) (h : HeaderInv F st) :
    HeaderInv F (st.emit m) := h

theorem headerInv_emitIf (F : Path) (st : St) (c : Prop) [Decidable c] (m : Msg)
    (h : HeaderInv F st) : HeaderInv F (if c then st.emit m else st) := by
  split
  · exact h
  · exact h

theorem headerInv_loadsUpd (F : Path) (st : St) (l : List Path) (h : HeaderInv F st) :
    HeaderInv F { st with loads := l } := h

theorem headerInv_mkdir (F : Path) (st : St) (p : Path) (hne : p ≠ F) (h : HeaderInv F st) :
    HeaderInv F (st.mkdir p) := by
  obtain ⟨h1, h2⟩ := h
  refine ⟨?_, h2⟩
  simp only [St.dirs_mkdir, List.mem_append, List.mem_singleton]
  rintro (hc | hc)
  · exact h1 hc
  · exact hne hc.symm

theorem headerInv_setFile (F : Path) (st : St) (p : Path) (c : List Line) (hne : p ≠ F)
    (h : HeaderInv F st) : HeaderInv F (st.setFile p c) := by
  obtain ⟨h1, h2⟩ := h
  refine ⟨h1, ?_⟩
  have he : (st.setFile p c).files.lookup F = st.files.lookup F := by
    unfold St.setFile
    exact lookup_setAssoc_ne p F c (fun hc => hne hc.symm) st.files
  rw [he]
  exact h2

/-- The aggregate-file append, with the header flag exactly as at the call
site (`header=not os.path.exists(fix_file)`), keeps the header count at
exactly one: an append to the absent file writes the header, an append to
the present file does not. -/
theorem headerInv_appendCsv (F : Path) (st : St) (cols : List String)
    (rows : List (List String)) (h : HeaderInv F st) :
    HeaderInv F (st.appendCsv F cols rows (!st.existsPath F)) := by
  obtain ⟨h1, h2⟩ := h
  refine ⟨?_, Or.inr ?_⟩
  · show F ∉ st.dirs
    exact h1
  rcases h2 with hn | ⟨c, hc, hcount⟩
  · have hdf : st.isdir F = false := by
      unfold St.isdir
      exact contains_eq_false_of_not_mem h1
    have hff : st.isfile F = false := by
      unfold St.isfile
      rw [hn]
      rfl
    have hef : st.existsPath F = false := by
      unfold St.existsPath
      rw [hdf, hff]
      rfl
    refine ⟨_, appendCsv_lookup_self st F cols rows _, ?_⟩
    rw [hef, hn]
    simp
  · have hef : st.existsPath F = true := by
      simp [St.existsPath, St.isfile, hc]
    refine ⟨_, appendCsv_lookup_self st F cols rows _, ?_⟩
    rw [hef, hc]
    simpa using hcount

/-- Processing one file never creates a directory. -/
theorem processFile_dirs (cfg : Config) (orc : Oracles) (folder outFold fixFile : Path)
    (nFiles fileIdx : Nat) (file : String) (st : St) :
    (processFile cfg orc folder outFold fixFile nFiles fileIdx file st).1.dirs = st.dirs := by
  unfold processFile
  cases hp : orc.parse (folder ++ [file]) with
  | error e => simp [hp]
  | ok data =>
    by_cases hz : data.time.length = 0
    · simp [hp, hz]
    · cases hc : orc.classify (folder ++ [file]) with
      | error e => simp [hp, hz, hc]
      | ok fix =>
        by_cases ht : fix.truthy <;> by_cases hn : fix.neFalse <;>
          simp [hp, hz, hc, ht, hn]

/-- Processing one file preserves the header invariant of the aggregate
file, provided the plot images land elsewhere (they always do: a plot image
lives one directory deeper). -/
theorem processFile_headerInv (cfg : Config) (orc : Oracles) (folder outFold F : Path)
    (nFiles fileIdx : Nat) (file : String) (st : St)
    (hpng : ∀ s, outFold ++ [s] ≠ F) (h : HeaderInv F st) :
    HeaderInv F (processFile cfg orc folder outFold F nFiles fileIdx file st).1 := by
  have hbase : HeaderInv F { (if 0 < cfg.log_level then
      ((if 0 < cfg.log_level then st.emit (Msg.processingFile (fileIdx + 1) nFiles)
        else st).emit (Msg.loadingData (folder ++ [file])))
      else (if 0 < cfg.log_level then st.emit (Msg.processingFile (fileIdx + 1) nFiles)
        else st)) with loads := st.loads ++ [folder ++ [file]] } := by
    apply headerInv_loadsUpd
    apply headerInv_emitIf
    apply headerInv_emitIf
    exact h
  unfold processFile
  cases hp : orc.parse (folder ++ [file]) with
  | error e => simpa [hp] using hbase
  | ok data =>
    by_cases hz : data.time.length = 0
    · simp only [hp, hz, if_pos, if_true]
      exact headerInv_emitIf F _ _ _ hbase
    · cases hc : orc.classify (folder ++ [file]) with
      | error e =>
        simp only [hp, if_neg hz, hc]
        exact headerInv_emit F _ _ (headerInv_emitIf F _ _ _ hbase)
      | ok fix =>
        by_cases ht : fix.truthy
        · by_cases hn : fix.neFalse
          · simp only [hp, if_neg hz, hc, ht, hn, Bool.not_true, if_true, if_false]
            apply headerInv_appendCsv
            split
            · exact headerInv_setFile F _ _ _ (hpng _) (headerInv_emitIf F _ _ _
                (headerInv_emitIf F _ _ _ hbase))
            · exact headerInv_emitIf F _ _ _ hbase
          · simp only [hp, if_neg hz, hc, ht, hn, Bool.not_true, if_false]
            exact headerInv_emitIf F _ _ _ hbase
        · simp only [hp, if_neg hz, hc, ht, Bool.not_false, if_true]
          exact headerInv_emitIf F _ _ _ (headerInv_emitIf F _ _ _ hbase)

/-- The inner loop preserves the header invariant. -/
theorem runFiles_headerInv (cfg : Config) (orc : Oracles) (folder outFold F : Path)
    (nFiles : Nat) (hpng : ∀ s, outFold ++ [s] ≠ F) :
    ∀ (files : List String) (idx : Nat) (st : St), HeaderInv F st →
      HeaderInv F (runFiles cfg orc folder outFold F nFiles idx files st).1 := by
  intro files
  induction files with
  | nil =>
    intro idx st h
    simp only [runFiles]
    exact h
  | cons f rest ih =>
    intro idx st h
    cases hpf : processFile cfg orc folder outFold F nFiles idx f st with
    | mk st' r =>
      have h' : HeaderInv F st' := by
        have h2 := processFile_headerInv cfg orc folder outFold F nFiles idx f st hpng h
        rw [hpf] at h2
        exact h2
      cases r with
      | some e =>
        have heq : runFiles cfg orc folder outFold F nFiles idx (f :: rest) st = (st', some e) := by
          simp only [runFiles, hpf]
        rw [heq]
        exact h'
      | none =>
        rw [runFiles_cons_of_none cfg orc folder outFold F nFiles idx f rest st st' hpf]
        exact ih (idx + 1) st' h'

/-- One folder's processing preserves the header invariant, provided neither
the folder's plot subdirectory nor the plot images collide with the
aggregate file path. -/
theorem processFolder_headerInv (cfg : Config) (orc : Oracles) (outRoot F : Path)
    (nFolders folderIdx : Nat) (folder : Path) (files : List String) (st : St)
    (hne : outRoot ++ [lastComp folder] ≠ F)
    (hpng : ∀ s, (outRoot ++ [lastComp folder]) ++ [s] ≠ F)
    (h : HeaderInv F st) :
    HeaderInv F (processFolder cfg orc outRoot F nFolders folderIdx folder files st).1 := by
  have hpre : HeaderInv F (folderPre cfg outRoot folder nFolders folderIdx st) := by
    unfold folderPre
    set st1 := if 0 < cfg.log_level then st.emit (.processingFolder (folderIdx + 1) nFolders)
      else st with hst1
    have h1 : HeaderInv F st1 := headerInv_emitIf F st _ _ h
    by_cases hp : cfg.do_plot_data = true
    · rw [if_pos hp]
      split
      · exact h1
      · exact headerInv_mkdir F st1 _ hne h1
    · rw [if_neg hp]
      exact h1
  by_cases hf : files.length = 0
  · unfold processFolder
    rw [if_pos hf]
    exact headerInv_emitIf F _ _ _ hpre
  · rw [processFolder_ne_empty cfg orc outRoot F nFolders folderIdx folder files st hf]
    exact runFiles_headerInv cfg orc folder _ F files.length hpng files 0 _ hpre

/-- The outer loop preserves the header invariant. -/
theorem runFolders_headerInv (cfg : Config) (orc : Oracles) (outRoot F : Path)
    (nFolders : Nat) :
    ∀ (groups : List (Path × List String)) (idx : Nat) (st : St),
      (∀ gp ∈ groups, outRoot ++ [lastComp gp.1] ≠ F) →
      (∀ gp ∈ groups, ∀ s, (outRoot ++ [lastComp gp.1]) ++ [s] ≠ F) →
      HeaderInv F st →
      HeaderInv F (runFolders cfg orc outRoot F nFolders idx groups st).1 := by
  intro groups
  induction groups with
  | nil =>
    intro idx st _ _ h
    simp only [runFolders]
    exact h
  | cons gp rest ih =>
    intro idx st hne hpng h
    obtain ⟨folder, files⟩ := gp
    cases hpf : processFolder cfg orc outRoot F nFolders idx folder files st with
    | mk st' r =>
      have h' : HeaderInv F st' := by
        have h2 := processFolder_headerInv cfg orc outRoot F nFolders idx folder files st
          (hne (folder, files) (List.mem_cons_self _ _))
          (hpng (folder, files) (List.mem_cons_self _ _)) h
        rw [hpf] at h2
        exact h2
      cases r with
      | some e =>
        have heq : runFolders cfg orc outRoot F nFolders idx ((folder, files) :: rest) st =
            (st', some e) := by simp only [runFolders, hpf]
        rw [heq]
        exact h'
      | none =>
        have heq : runFolders cfg orc outRoot F nFolders idx ((folder, files) :: rest) st =
            runFolders cfg orc outRoot F nFolders (idx + 1) rest st' := by
          simp only [runFolders, hpf]
        rw [heq]
        exact ih (idx + 1) st' (fun g hg => hne g (List.mem_cons_of_mem _ hg))
          (fun g hg => hpng g (List.mem_cons_of_mem _ hg)) h'

/-- The allocation loop returns either its starting candidate or one of the
suffixed variants. -/
theorem allocLoop_shape (isf : Path → Bool) (out : Path) :
    ∀ (fuel it : Nat) (f : Path), 1 ≤ it →
      allocLoop isf out f it fuel = f ∨
      ∃ k, 1 ≤ k ∧ k ≤ 99 ∧ allocLoop isf out f it fuel = out ++ [fmtFix k] := by
  intro fuel
  induction fuel with
  | zero =>
    intro it f h1
    exact Or.inl rfl
  | succ fuel ih =>
    intro it f h1
    simp only [allocLoop]
    by_cases hcnd : (isf f = true ∧ it < 100)
    · rw [if_pos hcnd]
      rcases ih (it + 1) (out ++ [fmtFix it]) (by omega) with h | ⟨k, hk1, hk2, hk3⟩
      · exact Or.inr ⟨it, h1, by omega, h⟩
      · exact Or.inr ⟨k, hk1, hk2, hk3⟩
    · rw [if_neg hcnd]
      exact Or.inl rfl

/-- The allocator always returns the output root extended by exactly one of
the hundred candidate file names. -/
theorem alloc_shape (isf : Path → Bool) (out : Path) :
    ∃ k, k ≤ 99 ∧ alloc isf out = out ++ [cand k] := by
  unfold alloc
  rcases allocLoop_shape isf out 100 1 (out ++ [cand 0]) (by omega) with
    h | ⟨k, hk1, hk2, h⟩
  · exact ⟨0, by omega, h⟩
  · refine ⟨k, hk2, ?_⟩
    rw [h]
    obtain ⟨j, rfl⟩ : ∃ j, k = j + 1 := ⟨k - 1, by omega⟩
    rfl

/-! ### Claim C4: the fallback variant is appended to, not overwritten -/

/-- Claim C4 (amended): when every probed candidate already exists, the
allocator falls back to `allfixations_99.txt`, and the aggregate write to it
— `to_csv` in mode `'a'` with `header=not exists` — appends this run's rows
after the file's existing contents (and writes no header): prior contents
are preserved, i.e. the run merges into, rather than overwrites, the
previous run's file. -/
theorem C4_fallback_appends_to_old_contents (st : St) (outRoot : Path)
    (hall : ∀ j, j ≤ 98 → st.isfile (outRoot ++ [cand j]) = true)
    (c : List Line) (hc : st.files.lookup (outRoot ++ [cand 99]) = some c)
    (cols : List String) (rows : List (List String)) :
    alloc st.isfile outRoot = outRoot ++ [cand 99] ∧
    (st.appendCsv (outRoot ++ [cand 99]) cols rows
        (!st.existsPath (outRoot ++ [cand 99]))).files.lookup (outRoot ++ [cand 99]) =
      some (c ++ rows.map Line.row) := by
  refine ⟨alloc_fallback_all st.isfile outRoot hall, ?_⟩
  have hef : st.existsPath (outRoot ++ [cand 99]) = true := by
    unfold St.existsPath St.isfile
    rw [hc]
    rfl
  rw [appendCsv_lookup_self, hef, hc]
  simp

set_option maxHeartbeats 4000000 in
/-- Counterexample to Claim C4 as stated: with every candidate present, a
concrete run appends its row after the old contents of
`allfixations_99.txt` — the old rows are still there, the file was merged
with, not overwritten. -/
theorem C4_fallback_counterexample :
    (run ⟨0, false⟩ orcOneFix ["data"] (some treeP1) ["out"] saturatedSt).1.files.lookup
        ["out", "allfixations_99.txt"] =
      some (oldContent99 ++ [Line.row ["5", "P1", "a"]]) ∧
    oldContent99 ≠ [] := by
  constructor
  · decide
  · decide

/-- Witness for the amended C4 at concrete inputs. -/
theorem C4_fallback_appends_witness :
    alloc saturatedSt.isfile ["out"] = ["out", "allfixations_99.txt"] ∧
    (saturatedSt.appendCsv ["out", "allfixations_99.txt"] ["dur"] [["5"]]
        (!saturatedSt.existsPath ["out", "allfixations_99.txt"])).files.lookup
      ["out", "allfixations_99.txt"] = some (oldContent99 ++ [Line.row ["5"]]) := by
  have h := C4_fallback_appends_to_old_contents saturatedSt ["out"] (by decide)
    oldContent99 (by decide) ["dur"] [["5"]]
  exact ⟨h.1, h.2⟩

/-! ### Claim C7: no schema check across appends -/

/-- What one recording's processing writes to the aggregate file when its
classification returns a (truthy) table and plotting is off: the old content,
then a header of the table's own columns exactly when the destination does
not yet exist, then the table's rows tagged with the participant (the
folder's last path component) and trial (the file's stem) — whatever the
columns are. -/
theorem processFile_append (cfg : Config) (orc : Oracles) (folder outFold fixFile : Path)
    (nFiles idx : Nat) (f : String) (st : St) (d : RawData) (cols : List String)
    (rows : List (List String))
    (hplot : cfg.do_plot_data = false)
    (hp : orc.parse (folder ++ [f]) = .ok d) (hz : d.time.length ≠ 0)
    (hc : orc.classify (folder ++ [f]) = .ok (.table cols rows)) (hcols : cols ≠ []) :
    (processFile cfg orc folder outFold fixFile nFiles idx f st).2 = none ∧
    (processFile cfg orc folder outFold fixFile nFiles idx f st).1.files.lookup fixFile =
      some ((st.files.lookup fixFile).getD [] ++
        (if st.existsPath fixFile then [] else
          [Line.header (cols ++ ["participant", "trial"])]) ++
        (rows.map (fun r => r ++ [lastComp folder, splitextStem f])).map Line.row) := by
  refine ⟨processFile_parse_ok cfg orc folder outFold fixFile nFiles idx f st d hp, ?_⟩
  have ht : (FixVal.table cols rows).truthy = true := by
    simp [FixVal.truthy, hcols]
  unfold processFile
  by_cases hl : 0 < cfg.log_level <;>
    · simp only [hp, hc, hl, ht, hplot, if_neg hz, FixVal.neFalse, Bool.not_true,
        Bool.false_eq_true, if_false, if_true, FixVal.cols, FixVal.rows]
      rw [appendCsv_lookup_self]
      simp only [St.existsPath, St.isfile, St.isdir, St.files_emit, St.dirs_emit]
      rw [ite_bang]

/-- Claim C7 (amended): the aggregate write performs no schema check at all —
for a recording whose classification succeeds with any column shape, the
append is written as-is (its rows following its own columns), with a header
carrying its own column names exactly when the destination file does not yet
exist and no header otherwise, and the recording's processing reports no
failure; a fixation set whose shape differs from the first-seen shape is
silently appended, not rejected. -/
theorem C7_no_schema_check (cfg : Config) (orc : Oracles) (folder outFold fixFile : Path)
    (nFiles idx : Nat) (f : String) (st : St) (d : RawData) (cols : List String)
    (rows : List (List String))
    (hplot : cfg.do_plot_data = false)
    (hp : orc.parse (folder ++ [f]) = .ok d) (hz : d.time.length ≠ 0)
    (hc : orc.classify (folder ++ [f]) = .ok (.table cols rows)) (hcols : cols ≠ []) :
    (processFile cfg orc folder outFold fixFile nFiles idx f st).2 = none ∧
    (processFile cfg orc folder outFold fixFile nFiles idx f st).1.files.lookup fixFile =
      some ((st.files.lookup fixFile).getD [] ++
        (if st.existsPath fixFile then [] else
          [Line.header (cols ++ ["participant", "trial"])]) ++
        (rows.map (fun r => r ++ [lastComp folder, splitextStem f])).map Line.row) :=
  processFile_append cfg orc folder outFold fixFile nFiles idx f st d cols rows
    hplot hp hz hc hcols

/-- Counterexample to Claim C7 as stated: a concrete run whose second
recording classifies with a different column shape does not fail fast — the
second append is written with its own shape into the same file, after the
first shape's header and row, and the run completes without error. -/
theorem C7_no_schema_check_counterexample :
    (run ⟨0, false⟩ orcTwoShapes ["data"] (some treeP2) ["out"] emptySt).2 = none ∧
    (run ⟨0, false⟩ orcTwoShapes ["data"] (some treeP2) ["out"] emptySt).1.files.lookup
        ["out", "allfixations.txt"] =
      some [Line.header ["u", "participant", "trial"], Line.row ["1", "P1", "a"],
        Line.row ["2", "3", "P1", "b"]] := by
  constructor
  · decide
  · decide

/-- Witness for the amended C7 at concrete inputs: an append whose shape
differs from the one already in the file is written as-is and reports no
failure. -/
theorem C7_no_schema_check_witness :
    (processFile ⟨0, false⟩ orcTwoShapes ["data", "P1"] ["out", "P1"]
      ["out", "allfixations.txt"] 2 1 "b.txt" mismatchSt).2 = none ∧
    (processFile ⟨0, false⟩ orcTwoShapes ["data", "P1"] ["out", "P1"]
      ["out", "allfixations.txt"] 2 1 "b.txt" mismatchSt).1.files.lookup
        ["out", "allfixations.txt"] =
      some [Line.header ["u", "participant", "trial"], Line.row ["1", "P1", "a"],
        Line.row ["2", "3", "P1", "b"]] := by
  have h := C7_no_schema_check ⟨0, false⟩ orcTwoShapes ["data", "P1"] ["out", "P1"]
    ["out", "allfixations.txt"] 2 1 "b.txt" mismatchSt ⟨[1]⟩ ["v", "w"] [["2", "3"]]
    rfl rfl (by decide) rfl (by decide)
  refine ⟨h.1, ?_⟩
  rw [h.2]
  rfl

/-! ### Claim C3: the header is written exactly once -/

/-- Claim C3 (amended): fix a run whose allocated destination does not
already exist (no file, no directory) and whose participant-group names do
not collide with the destination name.  Then (i) an aggregate append to the
not-yet-existing destination writes the header line first, followed by the
data rows; (ii) an append to the already-existing destination appends only
data rows; and (iii) at the end of the run the destination either holds
exactly one header line (some recording produced rows) or does not exist at
all (no recording produced rows) — with zero row-producing recordings no
file and in particular no header is ever written, so the header appears at
most once, not exactly once. -/
theorem C3_header_written_once (cfg : Config) (orc : Oracles) (dataPath : Path)
    (dataRoot : Option DirTree) (outRoot : Path) (st0 : St)
    (hfresh : st0.files.lookup (alloc st0.isfile outRoot) = none)
    (hnd : alloc st0.isfile outRoot ∉ st0.dirs)
    (hnc : ∀ gp ∈ groupsOf dataPath dataRoot,
      outRoot ++ [lastComp gp.1] ≠ alloc st0.isfile outRoot) :
    (∀ (st : St) (cols : List String) (rows : List (List String)),
      st.existsPath (alloc st0.isfile outRoot) = false →
      (st.appendCsv (alloc st0.isfile outRoot) cols rows
          (!st.existsPath (alloc st0.isfile outRoot))).files.lookup
        (alloc st0.isfile outRoot) =
        some (Line.header cols :: rows.map Line.row)) ∧
    (∀ (st : St) (c : List Line) (cols : List String) (rows : List (List String)),
      st.files.lookup (alloc st0.isfile outRoot) = some c →
      (st.appendCsv (alloc st0.isfile outRoot) cols rows
          (!st.existsPath (alloc st0.isfile outRoot))).files.lookup
        (alloc st0.isfile outRoot) = some (c ++ rows.map Line.row)) ∧
    ((run cfg orc dataPath dataRoot outRoot st0).1.files.lookup
        (alloc st0.isfile outRoot) = none ∨
      ∃ c, (run cfg orc dataPath dataRoot outRoot st0).1.files.lookup
        (alloc st0.isfile outRoot) = some c ∧ headerCount c = 1) := by
  obtain ⟨k, hk, hsh⟩ := alloc_shape st0.isfile outRoot
  refine ⟨?_, ?_, ?_⟩
  · intro st cols rows hex
    have hn : st.files.lookup (alloc st0.isfile outRoot) = none :=
      lookup_none_of_isfile_false st _ (St.existsPath_false_parts st _ hex).1
    rw [appendCsv_lookup_self, hex, hn]
    simp
  · intro st c cols rows hcl
    have hex : st.existsPath (alloc st0.isfile outRoot) = true :=
      St.existsPath_true_of_isfile st _ (St.isfile_true_of_lookup st _ c hcl)
    rw [appendCsv_lookup_self, hex, hcl]
    simp
  · simp only [run]
    rw [show (if st0.isdir outRoot then st0 else st0.mkdir outRoot).isfile = st0.isfile by
      split <;> rfl]
    have hinv1 : HeaderInv (alloc st0.isfile outRoot)
        (if st0.isdir outRoot then st0 else st0.mkdir outRoot) := by
      split
      · exact ⟨hnd, Or.inl hfresh⟩
      · refine headerInv_mkdir _ st0 outRoot ?_ ⟨hnd, Or.inl hfresh⟩
        rw [hsh]
        intro he
        have := congrArg List.length he
        simp at this
    have hinv2 : HeaderInv (alloc st0.isfile outRoot)
        (if 0 < cfg.log_level then
          (if st0.isdir outRoot then st0 else st0.mkdir outRoot).emit
            (.storeTo (alloc st0.isfile outRoot))
        else (if st0.isdir outRoot then st0 else st0.mkdir outRoot)) :=
      headerInv_emitIf _ _ _ _ hinv1
    have hpng : ∀ gp ∈ groupsOf dataPath dataRoot, ∀ s,
        (outRoot ++ [lastComp gp.1]) ++ [s] ≠ alloc st0.isfile outRoot := by
      intro gp _ s he
      rw [hsh] at he
      have := congrArg List.length he
      simp [List.length_append] at this
    have hinv3 := runFolders_headerInv cfg orc outRoot (alloc st0.isfile outRoot)
      (groupsOf dataPath dataRoot).length (groupsOf dataPath dataRoot) 0 _ hnc hpng hinv2
    cases hrf : runFolders cfg orc outRoot (alloc st0.isfile outRoot)
        (groupsOf dataPath dataRoot).length 0 (groupsOf dataPath dataRoot)
        (if 0 < cfg.log_level then
          (if st0.isdir outRoot then st0 else st0.mkdir outRoot).emit
            (.storeTo (alloc st0.isfile outRoot))
        else (if st0.isdir outRoot then st0 else st0.mkdir outRoot)) with
    | mk st' r =>
      rw [hrf] at hinv3
      cases r with
      | some e => exact hinv3.2
      | none => exact hinv3.2

/-- Counterexample to Claim C3 as stated: in a concrete run in which zero
recordings produced rows, the aggregate file is never created — its header
row appears zero times, not exactly once. -/
theorem C3_header_counterexample :
    (run ⟨1, true⟩ orcEmptyData ["data"] (some treeP1) ["out"] emptySt).1.files.lookup
        ["out", "allfixations.txt"] = none ∧
    headerCount (((run ⟨1, true⟩ orcEmptyData ["data"] (some treeP1) ["out"]
        emptySt).1.files.lookup ["out", "allfixations.txt"]).getD []) ≠ 1 := by
  constructor
  · decide
  · decide

/-- Witness for the amended C3 at concrete inputs: after a two-recording run
into a fresh output root the aggregate file holds exactly one header line. -/
theorem C3_header_written_once_witness :
    headerCount (((run ⟨1, false⟩ orcOneFix ["data"] (some treeP2) ["out"]
        emptySt).1.files.lookup (alloc emptySt.isfile ["out"])).getD []) = 1 := by
  rcases (C3_header_written_once ⟨1, false⟩ orcOneFix ["data"] (some treeP2) ["out"] emptySt
      rfl (by decide) (by decide)).2.2 with h | ⟨c, hc, hcount⟩
  · exact absurd h (by decide)
  · rw [hc]
    simpa using hcount

/-! ### Claim C9: plot-subdirectory creation -/

@[simp]
theorem St.mkdirCalls_emit (st : St) (m : Msg) : (st.emit m).mkdirCalls = st.mkdirCalls := rfl

@[simp]
theorem St.mkdirCalls_setFile (st : St) (p : Path) (c : List Line) :
    (st.setFile p c).mkdirCalls = st.mkdirCalls := rfl

@[simp]
theorem St.mkdirCalls_appendCsv (st : St) (p : Path) (cols : List String)
    (rows : List (List String)) (hdr : Bool) :
    (st.appendCsv p cols rows hdr).mkdirCalls = st.mkdirCalls := rfl

@[simp]
theorem St.mkdirCalls_ite (c : Prop) [Decidable c] (a b : St) :
    (if c then a else b).mkdirCalls = if c then a.mkdirCalls else b.mkdirCalls := by
  split <;> rfl

@[simp]
theorem St.mkdirCalls_mkdir (st : St) (p : Path) :
    (st.mkdir p).mkdirCalls = st.mkdirCalls ++ [p] := rfl

/-- Processing one file never records a `mkdir` call. -/
theorem processFile_mkdirCalls (cfg : Config) (orc : Oracles) (folder outFold fixFile : Path)
    (nFiles fileIdx : Nat) (file : String) (st : St) :
    (processFile cfg orc folder outFold fixFile nFiles fileIdx file st).1.mkdirCalls =
      st.mkdirCalls := by
  unfold processFile
  cases hp : orc.parse (folder ++ [file]) with
  | error e => simp [hp]
  | ok data =>
    by_cases hz : data.time.length = 0
    · simp [hp, hz]
    · cases hc : orc.classify (folder ++ [file]) with
      | error e => simp [hp, hz, hc]
      | ok fix =>
        by_cases ht : fix.truthy <;> by_cases hn : fix.neFalse <;>
          simp [hp, hz, hc, ht, hn]

/-- The inner loop never touches the directories. -/
theorem runFiles_dirs (cfg : Config) (orc : Oracles) (folder outFold fixFile : Path)
    (nFiles : Nat) : ∀ (files : List String) (idx : Nat) (st : St),
    (runFiles cfg orc folder outFold fixFile nFiles idx files st).1.dirs = st.dirs := by
  intro files
  induction files with
  | nil => intro idx st; simp only [runFiles]
  | cons f rest ih =>
    intro idx st
    cases hpf : processFile cfg orc folder outFold fixFile nFiles idx f st with
    | mk st' r =>
      have hd : st'.dirs = st.dirs := by
        have h2 := processFile_dirs cfg orc folder outFold fixFile nFiles idx f st
        rw [hpf] at h2
        exact h2
      cases r with
      | some e =>
        have heq : runFiles cfg orc folder outFold fixFile nFiles idx (f :: rest) st =
            (st', some e) := by simp only [runFiles, hpf]
        rw [heq]
        exact hd
      | none =>
        rw [runFiles_cons_of_none cfg orc folder outFold fixFile nFiles idx f rest st st' hpf]
        rw [ih (idx + 1) st']
        exact hd

/-- The inner loop never records a `mkdir` call. -/
theorem runFiles_mkdirCalls (cfg : Config) (orc : Oracles) (folder outFold fixFile : Path)
    (nFiles : Nat) : ∀ (files : List String) (idx : Nat) (st : St),
    (runFiles cfg orc folder outFold fixFile nFiles idx files st).1.mkdirCalls =
      st.mkdirCalls := by
  intro files
  induction files with
  | nil => intro idx st; simp only [runFiles]
  | cons f rest ih =>
    intro idx st
    cases hpf : processFile cfg orc folder outFold fixFile nFiles idx f st with
    | mk st' r =>
      have hd : st'.mkdirCalls = st.mkdirCalls := by
        have h2 := processFile_mkdirCalls cfg orc folder outFold fixFile nFiles idx f st
        rw [hpf] at h2
        exact h2
      cases r with
      | some e =>
        have heq : runFiles cfg orc folder outFold fixFile nFiles idx (f :: rest) st =
            (st', some e) := by simp only [runFiles, hpf]
        rw [heq]
        exact hd
      | none =>
        rw [runFiles_cons_of_none cfg orc folder outFold fixFile nFiles idx f rest st st' hpf]
        rw [ih (idx + 1) st']
        exact hd

/-- With plotting enabled, the per-group output subdirectory is present after
the progress-print/mkdir prologue of the folder, created exactly when it was
absent. -/
theorem folderPre_outFold_mem (cfg : Config) (outRoot folder : Path)
    (nFolders folderIdx : Nat) (st : St) (hplot : cfg.do_plot_data = true) :
    outRoot ++ [lastComp folder] ∈ (folderPre cfg outRoot folder nFolders folderIdx st).dirs := by
  unfold folderPre
  set st1 := if 0 < cfg.log_level then st.emit (.processingFolder (folderIdx + 1) nFolders)
    else st with hst1
  rw [if_pos hplot]
  split
  · rename_i hdir
    exact List.mem_of_elem_eq_true hdir
  · simp

/-- A folder's processing changes the directories exactly as its prologue
does. -/
theorem processFolder_dirs (cfg : Config) (orc : Oracles) (outRoot fixFile : Path)
    (nFolders folderIdx : Nat) (folder : Path) (files : List String) (st : St) :
    (processFolder cfg orc outRoot fixFile nFolders folderIdx folder files st).1.dirs =
      (folderPre cfg outRoot folder nFolders folderIdx st).dirs := by
  by_cases hf : files.length = 0
  · unfold processFolder folderPre
    rw [if_pos hf]
    simp
  · rw [processFolder_ne_empty cfg orc outRoot fixFile nFolders folderIdx folder files st hf,
      runFiles_dirs]

/-- A folder's processing records the `mkdir` calls its prologue records. -/
theorem processFolder_mkdirCalls (cfg : Config) (orc : Oracles) (outRoot fixFile : Path)
    (nFolders folderIdx : Nat) (folder : Path) (files : List String) (st : St) :
    (processFolder cfg orc outRoot fixFile nFolders folderIdx folder files st).1.mkdirCalls =
      (folderPre cfg outRoot folder nFolders folderIdx st).mkdirCalls := by
  by_cases hf : files.length = 0
  · unfold processFolder folderPre
    rw [if_pos hf]
    simp
  · rw [processFolder_ne_empty cfg orc outRoot fixFile nFolders folderIdx folder files st hf,
      runFiles_mkdirCalls]

theorem folderPre_st1_dirs (cfg : Config) (st : St) (m : Msg) :
    (if 0 < cfg.log_level then st.emit m else st).dirs = st.dirs := by
  split <;> rfl

theorem folderPre_st1_mkdirCalls (cfg : Config) (st : St) (m : Msg) :
    (if 0 < cfg.log_level then st.emit m else st).mkdirCalls = st.mkdirCalls := by
  split <;> rfl

/-- A `mkdir` on a directory that is already present is never issued: the
prologue's call log stays untouched. -/
theorem folderPre_mkdirCalls_of_mem (cfg : Config) (outRoot folder : Path)
    (nFolders folderIdx : Nat) (st : St)
    (hmem : outRoot ++ [lastComp folder] ∈ st.dirs) :
    (folderPre cfg outRoot folder nFolders folderIdx st).mkdirCalls = st.mkdirCalls := by
  unfold folderPre
  set st1 := if 0 < cfg.log_level then st.emit (.processingFolder (folderIdx + 1) nFolders)
    else st with hst1
  have hd : st1.dirs = st.dirs := by rw [hst1]; split <;> rfl
  have hm : st1.mkdirCalls = st.mkdirCalls := by rw [hst1]; split <;> rfl
  have hdir : st1.isdir (outRoot ++ [lastComp folder]) = true := by
    unfold St.isdir
    rw [hd]
    exact List.elem_eq_true_of_mem hmem
  by_cases hp : cfg.do_plot_data = true
  · rw [if_pos hp, if_pos hdir]
    exact hm
  · rw [if_neg hp]
    exact hm

/-- A `mkdir` on an absent directory is issued exactly once by the prologue
(plotting enabled). -/
theorem folderPre_mkdirCalls_of_not_mem (cfg : Config) (outRoot folder : Path)
    (nFolders folderIdx : Nat) (st : St) (hplot : cfg.do_plot_data = true)
    (hnot : outRoot ++ [lastComp folder] ∉ st.dirs) :
    (folderPre cfg outRoot folder nFolders folderIdx st).mkdirCalls =
      st.mkdirCalls ++ [outRoot ++ [lastComp folder]] := by
  unfold folderPre
  set st1 := if 0 < cfg.log_level then st.emit (.processingFolder (folderIdx + 1) nFolders)
    else st with hst1
  have hd : st1.dirs = st.dirs := by rw [hst1]; split <;> rfl
  have hm : st1.mkdirCalls = st.mkdirCalls := by rw [hst1]; split <;> rfl
  have hdir : ¬ st1.isdir (outRoot ++ [lastComp folder]) = true := by
    intro hc
    unfold St.isdir at hc
    rw [hd] at hc
    exact hnot (List.mem_of_elem_eq_true hc)
  rw [if_pos hplot, if_neg hdir]
  rw [show (st1.mkdir (outRoot ++ [lastComp folder])).mkdirCalls =
    st1.mkdirCalls ++ [outRoot ++ [lastComp folder]] from rfl, hm]

/-- The prologue only ever adds directories. -/
theorem folderPre_dirs_mono (cfg : Config) (outRoot folder : Path)
    (nFolders folderIdx : Nat) (st : St) (x : Path) (hx : x ∈ st.dirs) :
    x ∈ (folderPre cfg outRoot folder nFolders folderIdx st).dirs := by
  unfold folderPre
  set st1 := if 0 < cfg.log_level then st.emit (.processingFolder (folderIdx + 1) nFolders)
    else st with hst1
  have hd : st1.dirs = st.dirs := by rw [hst1]; split <;> rfl
  by_cases hp : cfg.do_plot_data = true
  · rw [if_pos hp]
    split
    · rw [hd]; exact hx
    · simp only [St.dirs_mkdir, hd]
      exact List.mem_append_left _ hx
  · rw [if_neg hp, hd]
    exact hx

/-- With plotting enabled, the per-group output subdirectory is present
after the folder's processing, whatever the outcome inside the folder. -/
theorem processFolder_outFold_mem (cfg : Config) (orc : Oracles) (outRoot fixFile : Path)
    (nFolders folderIdx : Nat) (folder : Path) (files : List String) (st : St)
    (hplot : cfg.do_plot_data = true) :
    outRoot ++ [lastComp folder] ∈
      (processFolder cfg orc outRoot fixFile nFolders folderIdx folder files st).1.dirs := by
  rw [processFolder_dirs]
  exact folderPre_outFold_mem cfg outRoot folder nFolders folderIdx st hplot

/-- The outer loop only ever adds directories. -/
theorem runFolders_dirs_mono (cfg : Config) (orc : Oracles) (outRoot fixFile : Path)
    (nFolders : Nat) (x : Path) :
    ∀ (groups : List (Path × List String)) (idx : Nat) (st : St), x ∈ st.dirs →
      x ∈ (runFolders cfg orc outRoot fixFile nFolders idx groups st).1.dirs := by
  intro groups
  induction groups with
  | nil => intro idx st hx; simp only [runFolders]; exact hx
  | cons gp rest ih =>
    intro idx st hx
    obtain ⟨folder, files⟩ := gp
    cases hpf : processFolder cfg orc outRoot fixFile nFolders idx folder files st with
    | mk st' r =>
      have hx' : x ∈ st'.dirs := by
        have h2 := processFolder_dirs cfg orc outRoot fixFile nFolders idx folder files st
        rw [hpf] at h2
        rw [show (st', r).1 = st' from rfl] at h2
        rw [h2]
        exact folderPre_dirs_mono cfg outRoot folder nFolders idx st x hx
      cases r with
      | some e =>
        have heq : runFolders cfg orc outRoot fixFile nFolders idx ((folder, files) :: rest) st =
            (st', some e) := by simp only [runFolders, hpf]
        rw [heq]
        exact hx'
      | none =>
        have heq : runFolders cfg orc outRoot fixFile nFolders idx ((folder, files) :: rest) st =
            runFolders cfg orc outRoot fixFile nFolders (idx + 1) rest st' := by
          simp only [runFolders, hpf]
        rw [heq]
        exact ih (idx + 1) st' hx'

/-- When the outer loop completes without an uncaught exception and plotting
is enabled, every enumerated group's output subdirectory is present at the
end. -/
theorem runFolders_dirs_all (cfg : Config) (orc : Oracles) (outRoot fixFile : Path)
    (nFolders : Nat) (hplot : cfg.do_plot_data = true) :
    ∀ (groups : List (Path × List String)) (idx : Nat) (st : St),
      (runFolders cfg orc outRoot fixFile nFolders idx groups st).2 = none →
      ∀ gp ∈ groups, outRoot ++ [lastComp gp.1] ∈
        (runFolders cfg orc outRoot fixFile nFolders idx groups st).1.dirs := by
  intro groups
  induction groups with
  | nil => intro idx st _ gp hgp; exact absurd hgp (List.not_mem_nil gp)
  | cons gph rest ih =>
    intro idx st hnone gp hgp
    obtain ⟨folder, files⟩ := gph
    cases hpf : processFolder cfg orc outRoot fixFile nFolders idx folder files st with
    | mk st' r =>
      cases r with
      | some e =>
        have heq : runFolders cfg orc outRoot fixFile nFolders idx ((folder, files) :: rest) st =
            (st', some e) := by simp only [runFolders, hpf]
        rw [heq] at hnone
        exact absurd hnone (by simp)
      | none =>
        have heq : runFolders cfg orc outRoot fixFile nFolders idx ((folder, files) :: rest) st =
            runFolders cfg orc outRoot fixFile nFolders (idx + 1) rest st' := by
          simp only [runFolders, hpf]
        rw [heq] at hnone ⊢
        rcases List.mem_cons.mp hgp with hgp1 | hgp1
        · subst hgp1
          apply runFolders_dirs_mono
          have h2 := processFolder_outFold_mem cfg orc outRoot fixFile nFolders idx folder
            files st hplot
          rw [hpf] at h2
          exact h2
        · exact ih (idx + 1) st' hnone gp hgp1

/-- Claim C9: with plotting enabled, every enumerated participant group's
output subdirectory (named after the group, i.e. after the folder's last
path component) is created before the group's recording count is examined —
so it is present after the folder's processing even when the group has zero
recordings, or when every recording of the group fails — and the creation
is idempotent: when the directory already exists no `mkdir` call is made,
and when it is absent exactly one `mkdir` call is made even for an empty
group.  Consequently, at the end of a run that completes without an uncaught
exception, the subdirectory of every enumerated group exists. -/
theorem C9_plot_subdirectory_created (cfg : Config) (orc : Oracles)
    (outRoot fixFile : Path) (nFolders folderIdx : Nat) (folder : Path)
    (files : List String) (st : St) (dataPath : Path) (dataRoot : Option DirTree)
    (st0 : St) (hplot : cfg.do_plot_data = true) :
    outRoot ++ [lastComp folder] ∈
      (processFolder cfg orc outRoot fixFile nFolders folderIdx folder files st).1.dirs ∧
    (outRoot ++ [lastComp folder] ∈ st.dirs →
      (processFolder cfg orc outRoot fixFile nFolders folderIdx folder files st).1.mkdirCalls =
        st.mkdirCalls) ∧
    (outRoot ++ [lastComp folder] ∉ st.dirs → files = [] →
      (processFolder cfg orc outRoot fixFile nFolders folderIdx folder files st).1.mkdirCalls =
        st.mkdirCalls ++ [outRoot ++ [lastComp folder]]) ∧
    ((run cfg orc dataPath dataRoot outRoot st0).2 = none →
      ∀ gp ∈ groupsOf dataPath dataRoot,
        outRoot ++ [lastComp gp.1] ∈ (run cfg orc dataPath dataRoot outRoot st0).1.dirs) := by
  refine ⟨?_, ?_, ?_, ?_⟩
  · exact processFolder_outFold_mem cfg orc outRoot fixFile nFolders folderIdx folder
      files st hplot
  · intro hmem
    rw [processFolder_mkdirCalls]
    exact folderPre_mkdirCalls_of_mem cfg outRoot folder nFolders folderIdx st hmem
  · intro hnot _
    rw [processFolder_mkdirCalls]
    exact folderPre_mkdirCalls_of_not_mem cfg outRoot folder nFolders folderIdx st hplot hnot
  · simp only [run]
    rw [show (if st0.isdir outRoot then st0 else st0.mkdir outRoot).isfile = st0.isfile by
      split <;> rfl]
    cases hrf : runFolders cfg orc outRoot (alloc st0.isfile outRoot)
        (groupsOf dataPath dataRoot).length 0 (groupsOf dataPath dataRoot)
        (if 0 < cfg.log_level then
          (if st0.isdir outRoot then st0 else st0.mkdir outRoot).emit
            (.storeTo (alloc st0.isfile outRoot))
        else (if st0.isdir outRoot then st0 else st0.mkdir outRoot)) with
    | mk st' r =>
      cases r with
      | some e =>
        intro hnone
        exact absurd hnone (by simp)
      | none =>
        intro _ gp hgp
        have h2 := runFolders_dirs_all cfg orc outRoot (alloc st0.isfile outRoot)
          (groupsOf dataPath dataRoot).length hplot (groupsOf dataPath dataRoot) 0
          (if 0 < cfg.log_level then
            (if st0.isdir outRoot then st0 else st0.mkdir outRoot).emit
              (.storeTo (alloc st0.isfile outRoot))
          else (if st0.isdir outRoot then st0 else st0.mkdir outRoot))
          (by rw [hrf]) gp hgp
        rw [hrf] at h2
        exact h2

/-- Witness for C9 at concrete inputs: an empty participant group still gets
its output subdirectory, both at the folder level and at the end of a whole
run. -/
theorem C9_plot_subdirectory_created_witness :
    ["out", "Pempty"] ∈ (processFolder ⟨1, true⟩ orcEmptyData ["out"]
      ["out", "allfixations.txt"] 1 0 ["data", "Pempty"] [] emptySt).1.dirs ∧
    ["out", "Pempty"] ∈ (run ⟨1, true⟩ orcEmptyData ["data"] (some treeEmptyGroup) ["out"]
      emptySt).1.dirs := by
  have h := C9_plot_subdirectory_created ⟨1, true⟩ orcEmptyData ["out"]
    ["out", "allfixations.txt"] 1 0 ["data", "Pempty"] [] emptySt ["data"]
    (some treeEmptyGroup) emptySt rfl
  exact ⟨h.1, h.2.2.2 (by decide) (["data", "Pempty"], []) (by decide)⟩

/-! ### Claim C10: recursive group enumeration -/

theorem getLastD_append_singleton (s : String) :
    ∀ (q : Path) (d : String), (q ++ [s]).getLastD d = s := by
  intro q
  induction q with
  | nil => intro d; rfl
  | cons a q ih =>
    intro d
    rw [List.cons_append, List.getLastD_cons]
    exact ih a

theorem lastComp_concat (q : Path) (s : String) : lastComp (q ++ [s]) = s :=
  getLastD_append_singleton s q ""

mutual
/-- The walk of a tree, projected to `(dirpath, filenames)`, is the root
entry followed by the projected strict descendants. -/
theorem walkFrom_groups (p : Path) : (t : DirTree) →
    (walkFrom p t).map (fun e => (e.1, e.2.2)) =
      (p, t.filesOf) :: (specGroups p t).map (fun g => (g.1, g.2.2))
  | .node n fs subs => by
    simp only [walkFrom, specGroups, DirTree.filesOf, List.map_cons]
    rw [walkList_groups p subs]

/-- The walk continuation over siblings, projected, is the projected
`specGroupsList`. -/
theorem walkList_groups (p : Path) : (ts : List DirTree) →
    (walkList p ts).map (fun e => (e.1, e.2.2)) =
      (specGroupsList p ts).map (fun g => (g.1, g.2.2))
  | [] => rfl
  | s :: rest => by
    simp only [walkList, specGroupsList, List.map_append, List.map_cons]
    rw [walkFrom_groups (p ++ [s.name]) s, walkList_groups p rest]
end

mutual
/-- Every enumerated group path strictly extends the root path. -/
theorem specGroups_len (p : Path) : (t : DirTree) →
    ∀ g ∈ specGroups p t, p.length < g.1.length
  | .node n fs subs => by
    simp only [specGroups]
    exact specGroupsList_len p subs

/-- Every group path from a sibling list strictly extends the parent path. -/
theorem specGroupsList_len (p : Path) : (ts : List DirTree) →
    ∀ g ∈ specGroupsList p ts, p.length < g.1.length
  | [] => by intro g hg; exact absurd hg (List.not_mem_nil g)
  | s :: rest => by
    intro g hg
    simp only [specGroupsList] at hg
    rcases List.mem_append.mp hg with h1 | h1
    · rcases List.mem_cons.mp h1 with h2 | h2
      · subst h2
        simp
      · have h3 := specGroups_len (p ++ [s.name]) s g h2
        simp only [List.length_append, List.length_singleton] at h3
        omega
    · exact specGroupsList_len p rest g h1
end

mutual
/-- Every enumerated group's identifier (the last component of its path) is
the name of the directory itself. -/
theorem specGroups_name (p : Path) : (t : DirTree) →
    ∀ g ∈ specGroups p t, lastComp g.1 = g.2.1
  | .node n fs subs => by
    simp only [specGroups]
    exact specGroupsList_name p subs

/-- Sibling-list version of `specGroups_name`. -/
theorem specGroupsList_name (p : Path) : (ts : List DirTree) →
    ∀ g ∈ specGroupsList p ts, lastComp g.1 = g.2.1
  | [] => by intro g hg; exact absurd hg (List.not_mem_nil g)
  | s :: rest => by
    intro g hg
    simp only [specGroupsList] at hg
    rcases List.mem_append.mp hg with h1 | h1
    · rcases List.mem_cons.mp h1 with h2 | h2
      · subst h2
        exact lastComp_concat p s.name
      · exact specGroups_name (p ++ [s.name]) s g h2
    · exact specGroupsList_name p rest g h1
end

/-- The code's enumeration (`fold[1:]` over `os.walk`) is exactly the strict
descendants of the data root with their direct files. -/
theorem groupsOf_eq_specGroups (dataPath : Path) (t : DirTree) :
    groupsOf dataPath (some t) = (specGroups dataPath t).map (fun g => (g.1, g.2.2)) := by
  simp only [groupsOf]
  rw [List.map_drop, walkFrom_groups]
  rfl

/-- Claim C10: participant groups are enumerated recursively — every
directory strictly below the data root, at any depth, is one group whose
recordings are exactly the files directly inside it (in depth-first walk
order); the data root itself is excluded (every group path strictly extends
the root's); and the group identifier — the last path component, which is
the directory's own name — is what tags the rows (`participant` column) and
names the plot subdirectory. -/
theorem C10_recursive_group_enumeration (dataPath : Path) (t : DirTree) (cfg : Config)
    (orc : Oracles) (outRoot outFold fixFile folder : Path) (nF idx : Nat) (f : String)
    (st : St) (d : RawData) (cols : List String) (rows : List (List String)) :
    groupsOf dataPath (some t) = (specGroups dataPath t).map (fun g => (g.1, g.2.2)) ∧
    (∀ g ∈ specGroups dataPath t, dataPath.length < g.1.length ∧ g.1 ≠ dataPath) ∧
    (∀ g ∈ specGroups dataPath t, lastComp g.1 = g.2.1) ∧
    (cfg.do_plot_data = true →
      outRoot ++ [lastComp folder] ∈ (folderPre cfg outRoot folder nF idx st).dirs) ∧
    (cfg.do_plot_data = false → orc.parse (folder ++ [f]) = .ok d → d.time.length ≠ 0 →
      orc.classify (folder ++ [f]) = .ok (.table cols rows) → cols ≠ [] →
      (processFile cfg orc folder outFold fixFile nF idx f st).1.files.lookup fixFile =
        some ((st.files.lookup fixFile).getD [] ++
          (if st.existsPath fixFile then [] else
            [Line.header (cols ++ ["participant", "trial"])]) ++
          (rows.map (fun r => r ++ [lastComp folder, splitextStem f])).map Line.row)) := by
  refine ⟨groupsOf_eq_specGroups dataPath t, ?_, specGroups_name dataPath t, ?_, ?_⟩
  · intro g hg
    have h1 := specGroups_len dataPath t g hg
    refine ⟨h1, ?_⟩
    intro he
    rw [he] at h1
    exact Nat.lt_irrefl _ h1
  · intro hplot
    exact folderPre_outFold_mem cfg outRoot folder nF idx st hplot
  · intro hplot hp hz hc hcols
    exact (processFile_append cfg orc folder outFold fixFile nF idx f st d cols rows
      hplot hp hz hc hcols).2

/-- Witness for C10 at concrete inputs: on a nested tree the enumeration
equals the spec-side recursive enumeration, a depth-two group is included
(with its path strictly below the root), and its identifier is the
directory's own name. -/
theorem C10_recursive_group_enumeration_witness :
    groupsOf ["data"] (some treeNested) =
      (specGroups ["data"] treeNested).map (fun g => (g.1, g.2.2)) ∧
    (["data"] : Path).length < (["data", "P1", "sub"] : Path).length ∧
    lastComp ["data", "P1", "sub"] = "sub" := by
  have h := C10_recursive_group_enumeration ["data"] treeNested ⟨1, true⟩ orcOneFix
    ["out"] ["out", "P1"] ["out", "allfixations.txt"] ["data", "P1"] 2 0 "a.txt"
    emptySt ⟨[1]⟩ ["dur"] [["5"]]
  refine ⟨h.1, ?_, ?_⟩
  · exact (h.2.1 (["data", "P1", "sub"], "sub", ["b.txt"]) (by decide)).1
  · exact h.2.2.1 (["data", "P1", "sub"], "sub", ["b.txt"]) (by decide)

end I2MCExample
